import Mathlib

set_option linter.unusedVariables false

/-!
Shallow embedding of the ARIES-style crash-recovery core of `src/sm/restart.cpp`
(recovery coordinator, Analysis pass, log-driven Redo pass, reverse and
transaction-driven Undo passes).

Conventions of the embedding:
* LSNs (`lsn_t`) are naturals; `0` plays the role of `lsn_t::null`.
  `lsn.advance(1)` is `+ 1`.
* Transaction ids (`tid_t`) are naturals; `0` is `tid_t::null`.
* Fatal errors (`W_FATAL_MSG`, `abort()`, null-pointer dereference) are the
  `.error` constructor of `Except`.
* Peer-subsystem operations that restart.cpp drives through the abstract
  interfaces of the spec (buffer pool, transaction table, log storage,
  single-page repair) are modelled as explicit state or as oracle functions;
  each such definition carries a comment saying what it stands for.
-/

/-- Transaction states (`xct_t::state_t`) that recovery distinguishes. -/
inductive XState where
  | active
  | freeing_space
  | aborting
  | ended
  deriving DecidableEq, Repr

/-- Log record kinds (`logrec_t::kind_t`) dispatched on by restart.cpp. -/
inductive Rectype where
  | chkpt_begin
  | chkpt_bf_tab
  | chkpt_xct_tab
  | chkpt_dev_tab
  | chkpt_end
  | mount_vol
  | dismount_vol
  | xct_end
  | xct_abort
  | xct_freeing_space
  | xct_end_group
  | compensate
  | store_operation
  | alloc_a_page
  | alloc_consecutive_pages
  | dealloc_a_page
  | page_set_to_be_deleted
  | page_img_format
  | btree_norec_alloc
  | btree_insert
  | btree_insert_nonghost
  | btree_update
  | btree_overwrite
  | btree_ghost_mark
  | btree_ghost_reclaim
  | btree_ghost_reserve
  | btree_foster_adopt
  | btree_foster_merge
  | btree_foster_rebalance
  | btree_foster_rebalance_norec
  | btree_foster_deadopt
  | comment
  | skip
  | max_logrec
  deriving DecidableEq, Repr

/-- A page id (`lpid_t`): volume, store and page number. -/
structure Pid where
  vol : Nat
  store : Nat
  page : Nat
  deriving DecidableEq, Repr

/-- One entry of a `chkpt_bf_tab_t` payload: `(pid, rec_lsn)`. -/
structure ChkptBfEntry where
  pid : Pid
  rec_lsn : Nat
  deriving DecidableEq, Repr

/-- One entry of a `chkpt_xct_tab_t` payload:
    `(tid, state, last_lsn, first_lsn, undo_nxt)`. -/
structure ChkptXctEntry where
  tid : Nat
  state : XState
  last_lsn : Nat
  first_lsn : Nat
  undo_nxt : Nat
  deriving DecidableEq, Repr

/-- A recovery-log record as restart.cpp consumes it: kind, self-described
    LSN (`lsn_ck`), transaction id, previous-record-in-xct LSN (`xid_prev`),
    the one or two page ids (`construct_pid` / `construct_pid2`), the header
    flags, and the kind-specific payloads (all present as fields; only the
    payload matching `rtype` is ever read, like a C union). -/
structure logrec_t where
  rtype : Rectype
  lsn_ck : Nat
  tid : Nat
  xid_prev : Nat
  pid : Pid
  pid2 : Pid
  is_single_sys_xct : Bool
  is_redo : Bool
  is_undo : Bool
  is_cpsn : Bool
  is_multi_page : Bool
  is_page_update : Bool
  /-- payload of `chkpt_begin`: LSN of the last mount/dismount before it. -/
  lastMount : Nat
  /-- payload of `chkpt_bf_tab`. -/
  bf_tab : List ChkptBfEntry
  /-- `chkpt_xct_tab` payload: youngest tid. -/
  youngest : Nat
  /-- `chkpt_xct_tab` payload: transaction entries. -/
  xct_tab : List ChkptXctEntry
  /-- `chkpt_dev_tab` (and mount/dismount) payload: volume ids to mount. -/
  dev_tab : List Nat
  /-- `chkpt_end` payload: `begin_chkpt`. -/
  end_base : Nat
  /-- `chkpt_end` payload: `min_rec_lsn`. -/
  end_min_rec : Nat
  /-- `chkpt_end` payload: `min_xct_lsn`. -/
  end_min_xct : Nat
  /-- `xct_end_group` payload: the listed transaction ids. -/
  group_tids : List Nat
  deriving DecidableEq, Repr

/-- `logrec_t::is_page_allocate()`: allocation records
    (`t_alloc_a_page`, `t_alloc_consecutive_pages`). -/
def logrec_t.is_page_allocate (r : logrec_t) : Bool :=
  match r.rtype with
  | .alloc_a_page | .alloc_consecutive_pages => true
  | _ => false

/-- `logrec_t::is_page_deallocate()`: deallocation records
    (`t_dealloc_a_page`, `t_page_set_to_be_deleted`). -/
def logrec_t.is_page_deallocate (r : logrec_t) : Bool :=
  match r.rtype with
  | .dealloc_a_page | .page_set_to_be_deleted => true
  | _ => false

/-- `logrec_t::is_skip()`. -/
def logrec_t.is_skip (r : logrec_t) : Bool := r.rtype == .skip

/-- `logrec_t::null_pid()`: the page number recorded in the record is zero. -/
def logrec_t.null_pid (r : logrec_t) : Bool := r.pid.page == 0

/-- `logrec_t::shpid()`: the primary page number of the record. -/
def logrec_t.shpid (r : logrec_t) : Nat := r.pid.page

/-- A transaction-table entry (`xct_t`) as recovery creates and mutates it. -/
structure xct_t where
  tid : Nat
  state : XState
  last_lsn : Nat
  first_lsn : Nat
  undo_nxt : Nat
  sys_xct : Bool
  single_log_sys_xct : Bool
  doomed : Bool
  deriving DecidableEq, Repr

/-- `xct_t::look_up(tid)` over the transaction-table list. -/
def xctLookup (tbl : List xct_t) (t : Nat) : Option xct_t :=
  tbl.find? (fun x => x.tid == t)

/-- Update (via the looked-up pointer) every entry with the given tid. -/
def xctUpdate (tbl : List xct_t) (t : Nat) (f : xct_t → xct_t) : List xct_t :=
  tbl.map (fun x => if x.tid == t then f x else x)

/-- `xct_t::num_active_xcts()`: entries in `xct_active` state. -/
def numActiveXcts (tbl : List xct_t) : Nat :=
  (tbl.filter (fun x => x.state == XState.active)).length

/- ============================ Redo pass ============================ -/

/-- Buffer-pool hash key (`bf_key(vol, page)`). -/
abbrev BfKey := Nat × Nat

/-- `bf_key` of a page id. -/
def bfKeyOf (p : Pid) : BfKey := (p.vol, p.page)

/-- Page control block state (`bf_tree_cb_t`) tracked by the Redo pass:
    the `in_doubt`/`dirty`/`used` flags, `_rec_lsn`, and the last-write LSN
    of the in-memory page image held in the frame. -/
structure rcb where
  in_doubt : Bool
  dirty : Bool
  used : Bool
  rec_lsn : Nat
  page_lsn : Nat
  deriving DecidableEq, Repr

/-- `bf->lookup_in_doubt(key)` followed by `get_cb`: the hashtable lookup. -/
def bfFind (bp : List (BfKey × rcb)) (k : BfKey) : Option rcb :=
  (bp.find? (fun e => e.1 == k)).map (fun e => e.2)

/-- Write back a control block under its key. -/
def bfSet (bp : List (BfKey × rcb)) (k : BfKey) (cb : rcb) : List (BfKey × rcb) :=
  bp.map (fun e => if e.1 == k then (e.1, cb) else e)

/-- Outcome of `bf->load_for_redo` for one page, given as an oracle:
    the on-disk last-write LSN, past-end-of-file (page never flushed),
    a checksum failure, or any other load error. -/
inductive LoadRes where
  | ok (pageLsn : Nat)
  | pastEnd
  | badChecksum
  | otherErr
  deriving DecidableEq, Repr

/-- Fatal outcomes of the Redo pass (`W_FATAL_MSG` / `abort()` sites). -/
inductive RFatal where
  | pastEndOfFile
  | loadFail
  | walViolation
  | deallocInHashtable
  | usedFlagClean
  | notInHashtable
  | noPageXctNotActive
  | invalidHeader
  | wrongRedoMode
  | dirtyCountMismatch
  deriving DecidableEq, Repr

/-- Virgin-producing record test of `_redo_log_with_pid`:
    `t_page_img_format`, or the second page of `t_btree_norec_alloc`
    (`page_updated.page != r.shpid()`). -/
def virginFor (r : logrec_t) (pageUpdated : Pid) : Bool :=
  r.rtype == .page_img_format ||
  (r.rtype == .btree_norec_alloc && !(pageUpdated.page == r.shpid))

/-- The page's effective last-write LSN as `_redo_log_with_pid` obtains it:
    load from disk on first touch of a non-virgin page (single-page repair
    via the `spr` oracle when the checksum is bad; `none` on the two fatal
    load outcomes), `lsn_t::null` for a virgin page, and the in-memory
    image's LSN for a page that is already loaded (dirty). -/
def effLastWrite (r : logrec_t) (lsn : Nat) (pageUpdated : Pid)
    (disk : BfKey → LoadRes) (spr : BfKey → Nat → Nat) (cb : rcb) : Option Nat :=
  if cb.in_doubt && !(virginFor r pageUpdated) then
    match disk (bfKeyOf pageUpdated) with
    | .ok l => some l
    | .badChecksum => some (spr (bfKeyOf pageUpdated) lsn)
    | .pastEnd => none
    | .otherErr => none
  else
    some (if virginFor r pageUpdated then 0 else cb.page_lsn)

/-- Result of `_redo_log_with_pid`: the updated buffer pool, the `redone`
    flag, whether the record's redo function was actually invoked on the
    page (`r.redo(&page)`), and the increment of `dirty_count`. -/
structure RWPres where
  bp : List (BfKey × rcb)
  redone : Bool
  applied : Bool
  dirtyDelta : Nat
  deriving DecidableEq, Repr

/-- `restart_m::_redo_log_with_pid(r, lsn, end_logscan_lsn, page_updated, ...)`.
    Latch acquisition is modelled as succeeding (the embedding is
    single-threaded; in the source a latch failure is fatal). -/
def redoLogWithPid (r : logrec_t) (lsn endLogscanLsn : Nat) (pageUpdated : Pid)
    (disk : BfKey → LoadRes) (spr : BfKey → Nat → Nat)
    (bp : List (BfKey × rcb)) : Except RFatal RWPres :=
  match bfFind bp (bfKeyOf pageUpdated) with
  | none =>
      -- not in hashtable: only valid for a page-deallocation record
      if r.is_page_deallocate then .ok ⟨bp, false, false, 0⟩
      else .error .notInHashtable
  | some cb =>
      if cb.in_doubt || cb.dirty then
        match effLastWrite r lsn pageUpdated disk spr cb with
        | none =>
            match disk (bfKeyOf pageUpdated) with
            | .pastEnd => .error .pastEndOfFile
            | _ => .error .loadFail
        | some page_lsn =>
            if page_lsn < lsn then
              -- apply the record's redo; page lsn := record lsn;
              -- lower cb._rec_lsn on first touch or virgin page
              let rec' := if (cb.in_doubt || virginFor r pageUpdated) &&
                             decide (lsn < cb.rec_lsn)
                          then lsn else cb.rec_lsn
              let cb1 : rcb := { cb with page_lsn := lsn, rec_lsn := rec' }
              let cb2 : rcb := if cb.in_doubt
                               then { cb1 with in_doubt := false, dirty := true }
                               else cb1
              .ok ⟨bfSet bp (bfKeyOf pageUpdated) cb2, true, true,
                   if cb.in_doubt then 1 else 0⟩
            else if virginFor r pageUpdated then
              -- virgin page: the format itself is the redo
              let cb1 : rcb := { cb with rec_lsn := lsn, page_lsn := page_lsn }
              let cb2 : rcb := if cb.in_doubt
                               then { cb1 with in_doubt := false, dirty := true }
                               else cb1
              .ok ⟨bfSet bp (bfKeyOf pageUpdated) cb2, true, false,
                   if cb.in_doubt then 1 else 0⟩
            else if endLogscanLsn ≤ page_lsn && !(page_lsn == 0) then
              -- WAL violation
              .error .walViolation
            else
              -- skip; bump the page lsn by one so a later record is
              -- still considered
              let cb1 : rcb := if page_lsn == 0 then cb
                               else { cb with page_lsn := page_lsn + 1 }
              .ok ⟨bfSet bp (bfKeyOf pageUpdated) cb1, false, false, 0⟩
      else
        -- neither in_doubt nor dirty but present in the hashtable
        if r.is_page_allocate then .ok ⟨bp, false, false, 0⟩
        else if r.is_page_deallocate then .error .deallocInHashtable
        else if cb.used then .error .usedFlagClean
        else .ok ⟨bp, false, false, 0⟩

/-- State threaded through `redo_log_pass`: buffer pool, `dirty_count`,
    the LSNs of the records the scan has handled (in order), the mounted
    volumes and the last-mount LSN (`io_m::SetLastMountLSN`). -/
structure RState where
  bp : List (BfKey × rcb)
  dirty_count : Nat
  processed : List Nat
  mounted : List Nat
  lastMountLsn : Nat
  deriving DecidableEq, Repr

/-- Body of the `redo_log_pass` scan loop for one record (after the
    concurrent-mode stop test and the header validation). -/
def redoOne (endLogscanLsn : Nat) (xcts : List xct_t)
    (disk : BfKey → LoadRes) (spr : BfKey → Nat → Nat)
    (lsn : Nat) (r : logrec_t) (st : RState) : Except RFatal RState :=
  if r.is_redo then
    if r.null_pid then
      if !r.is_single_sys_xct && !(r.tid == 0) then
        -- regular transaction, no page: logical redo if still active
        match xctLookup xcts r.tid with
        | some xd =>
            if xd.state == XState.active then .ok st
            else .error .noPageXctNotActive
        | none => .ok st
      else if !r.is_single_sys_xct then
        -- mount/dismount record: r.redo(0) and SetLastMountLSN(lsn)
        let m := if r.rtype == .mount_vol then r.dev_tab ++ st.mounted
                 else if r.rtype == .dismount_vol then
                   st.mounted.filter (fun v => !(r.dev_tab.contains v))
                 else st.mounted
        .ok { st with mounted := m, lastMountLsn := lsn }
      else
        -- single-log system transaction without a page
        if !r.is_page_allocate && !r.is_page_deallocate then
          .ok { st with lastMountLsn := lsn }
        else .ok st
    else
      match redoLogWithPid r lsn endLogscanLsn r.pid disk spr st.bp with
      | .error e => .error e
      | .ok res =>
          if r.is_multi_page then
            match redoLogWithPid r lsn endLogscanLsn r.pid2 disk spr res.bp with
            | .error e => .error e
            | .ok res2 =>
                .ok { st with bp := res2.bp,
                              dirty_count :=
                                st.dirty_count + res.dirtyDelta + res2.dirtyDelta }
          else .ok { st with bp := res.bp,
                             dirty_count := st.dirty_count + res.dirtyDelta }
  else .ok st

/-- The forward scan loop of `redo_log_pass`. In concurrent (non-serial)
    mode the loop breaks at the first record whose LSN exceeds
    `end_logscan_lsn`; an invalid header aborts. -/
def redoScan (serial : Bool) (endLogscanLsn : Nat) (xcts : List xct_t)
    (disk : BfKey → LoadRes) (spr : BfKey → Nat → Nat) :
    List (Nat × logrec_t) → RState → Except RFatal RState
  | [], st => .ok st
  | (lsn, r) :: rest, st =>
    if !serial && endLogscanLsn < lsn then .ok st
    else if !(lsn == r.lsn_ck) then .error .invalidHeader
    else
      match redoOne endLogscanLsn xcts disk spr lsn r
              { st with processed := st.processed ++ [lsn] } with
      | .error e => .error e
      | .ok st' => redoScan serial endLogscanLsn xcts disk spr rest st'

/-- `restart_m::redo_log_pass(redo_lsn, end_logscan_lsn, in_doubt_count)`:
    immediate return when `in_doubt_count == 0`; fatal when the boot
    configuration is not log-driven Redo; otherwise the forward scan
    followed by the `dirty_count == in_doubt_count` validation. -/
def redo_log_pass (serial cfgRedoLogDriven : Bool) (endLogscanLsn : Nat)
    (in_doubt_count : Nat) (xcts : List xct_t)
    (disk : BfKey → LoadRes) (spr : BfKey → Nat → Nat)
    (recs : List (Nat × logrec_t)) (st0 : RState) : Except RFatal RState :=
  if in_doubt_count == 0 then .ok st0
  else if !cfgRedoLogDriven then .error .wrongRedoMode
  else
    match redoScan serial endLogscanLsn xcts disk spr recs st0 with
    | .error e => .error e
    | .ok st =>
        if !(in_doubt_count == st.dirty_count) then .error .dirtyCountMismatch
        else .ok st

/- ======================= Recovery coordinator ======================= -/

/-- `smlevel_0::operating_mode` values touched by recovery. -/
inductive OpMode where
  | beforeRecovery
  | inAnalysis
  | inRedo
  | inUndo
  deriving DecidableEq, Repr

/-- Observable actions of `restart_m::recover`, in program order. -/
inductive REvent where
  | disableSwizzle
  | setMode (m : OpMode)
  | runAnalysis
  | takeCheckpoint
  | runRedoLogPass
  | forceAllBuffers
  | runUndoReversePass
  | enableSwizzle
  | ret
  deriving DecidableEq, Repr

/-- Result of the coordinator model: the action trace, the buffer pool's
    swizzling switch on return, and the operating mode on return. -/
structure RecoverOut where
  trace : List REvent
  swizzlingOn : Bool
  mode : OpMode
  deriving DecidableEq, Repr

/-- `restart_m::recover(master, ...)` control skeleton. Inputs: the boot
    policy (`use_serial_recovery()`), whether swizzling was enabled before
    recovery (`org_swizzling_enabled`), and the two Analysis outputs that
    steer the branches: `in_doubt_count` and the number of doomed
    transactions (`xct_count`). `analysis_pass` sets the operating mode to
    in-analysis as its first action, so that mode change appears just
    before the analysis event. -/
def recover (serial org_swizzling_enabled : Bool)
    (in_doubt_count xct_count : Nat) : RecoverOut :=
  let pre : List REvent :=
    (if org_swizzling_enabled then [REvent.disableSwizzle] else []) ++
    [REvent.setMode .inAnalysis, REvent.runAnalysis, REvent.takeCheckpoint]
  if !serial then
    -- concurrent: return to caller after Analysis and its checkpoint;
    -- swizzling deliberately not re-enabled; mode still in-analysis
    { trace := pre ++ [REvent.ret], swizzlingOn := false, mode := .inAnalysis }
  else
    let redoPart : List REvent :=
      [REvent.setMode .inRedo] ++
      (if in_doubt_count ≠ 0 then [REvent.runRedoLogPass, REvent.forceAllBuffers]
       else [])
    let undoPart : List REvent :=
      [REvent.setMode .inUndo] ++
      (if xct_count ≠ 0 then [REvent.runUndoReversePass, REvent.takeCheckpoint]
       else [])
    let swz : List REvent :=
      if org_swizzling_enabled then [REvent.enableSwizzle] else []
    { trace := pre ++ redoPart ++ undoPart ++ swz ++ [REvent.ret],
      swizzlingOn := org_swizzling_enabled,
      mode := .inUndo }

/-- Boolean subsequence test (used to state that a trace performs the
    claimed actions in the claimed order, other actions interleaving). -/
def subseq : List REvent → List REvent → Bool
  | [], _ => true
  | _ :: _, [] => false
  | a :: as, b :: bs => if a == b then subseq as bs else subseq (a :: as) bs

/- =================== Transaction-driven Undo pass =================== -/

/-- Observable actions of the Undo passes. -/
inductive UEvent where
  | abortXct (tid : Nat)
  | flushAll
  | setCommitLsnNull
  deriving DecidableEq, Repr

/-- The walk of `_undo_txn_pass` over the transaction table. For a doomed
    active entry: a system transaction with non-null `undo_nxt` gets its
    `undo_nxt` cleared and stays; a normal transaction with non-null
    `undo_nxt` is aborted (`xct_t::abort`) and destroyed; one with null
    `undo_nxt` (last record was a compensation) is skipped. Every other
    entry is left alone. -/
def undoTxnWalk : List xct_t → List xct_t × List UEvent
  | [] => ([], [])
  | x :: rest =>
    if x.doomed && x.state == XState.active then
      if !(x.undo_nxt == 0) then
        if x.sys_xct then
          let (tbl, evs) := undoTxnWalk rest
          ({ x with undo_nxt := 0 } :: tbl, evs)
        else
          let (tbl, evs) := undoTxnWalk rest
          (tbl, UEvent.abortXct x.tid :: evs)
      else
        -- doomed but no undo_nxt: nothing to undo, entry left in the table
        let (tbl, evs) := undoTxnWalk rest
        (x :: tbl, evs)
    else
      let (tbl, evs) := undoTxnWalk rest
      (x :: tbl, evs)

/-- `restart_m::_undo_txn_pass()`: immediate return when the transaction
    table holds no active entries; otherwise the table walk, then
    `log->flush_all()` and `commit_lsn := lsn_t::null`. -/
def undo_txn_pass (tbl : List xct_t) : List xct_t × List UEvent :=
  if numActiveXcts tbl == 0 then (tbl, [])
  else
    let (tbl', evs) := undoTxnWalk tbl
    (tbl', evs ++ [UEvent.flushAll, UEvent.setCommitLsnNull])

/- ================== Reverse-chronological Undo pass ================== -/

/-- A doomed transaction as the Undo Heap sees it. `chain` is the
    transaction's undo_next chain through the log: its head is the
    transaction's current `undo_nxt`, each later element the `undo_nxt`
    recorded in the next record backward. An empty chain is
    `undo_nxt == lsn_t::null`. -/
structure UndoXct where
  tid : Nat
  sys_xct : Bool
  single_log_sys_xct : Bool
  chain : List Nat
  deriving DecidableEq, Repr

/-- `xct_t::undo_nxt()`. -/
def UndoXct.undoNxt (x : UndoXct) : Nat := x.chain.headD 0

/-- Modelled from the spec: the Undo Heap (`XctPtrHeap` with
    `CmpXctUndoLsns`, implemented outside this file) is a max-heap ordered
    by each transaction's `undo_next_lsn`. It is modelled as a list kept
    sorted in descending `undoNxt` order: `First()` is the head,
    `Second()` the next element, `ReplacedFirst()` re-inserts the head. -/
def heapInsert (x : UndoXct) : List UndoXct → List UndoXct
  | [] => [x]
  | y :: ys => if y.undoNxt ≤ x.undoNxt then x :: y :: ys else y :: heapInsert x ys

/-- Modelled from the spec: `Heapify()` over an unordered element list. -/
def heapify (l : List UndoXct) : List UndoXct := l.foldr heapInsert []

/-- Modelled from the spec: `xct_t::rollback(floor)` (implemented in the
    transaction manager, outside this file) follows the transaction's
    undo_next chain backward through the log, invoking each record's undo
    function and writing a CLR, and stops when `undo_next_lsn ≤ floor` or
    it becomes NULL. -/
def rollbackTo (x : UndoXct) (floor : Nat) : UndoXct :=
  { x with chain := x.chain.dropWhile (fun l => floor < l) }

/-- One iteration of the inner loop of `undo_reverse_pass` (entered with
    `heap.NumElements() > 1` and `First()->undo_nxt() != null`): a system
    transaction gets its `undo_nxt` cleared, otherwise the top transaction
    is rolled back to `Second()->undo_nxt()`; then `ReplacedFirst()`. -/
def undoStep : List UndoXct → List UndoXct
  | [] => []
  | [x] => [x]
  | top :: second :: rest =>
    if top.sys_xct then heapInsert { top with chain := [] } (second :: rest)
    else heapInsert (rollbackTo top second.undoNxt) (second :: rest)

/-- The inner `while (heap.First()->undo_nxt() != lsn_t::null)` loop of
    `undo_reverse_pass`, with fuel for termination (the source relies on
    each rollback strictly lowering the top `undo_nxt`). -/
def undoLoop : Nat → List UndoXct → Option (List UndoXct)
  | 0, _ => none
  | _ + 1, [] => some []
  | fuel + 1, top :: rest =>
    if top.undoNxt == 0 then some (top :: rest)
    else undoLoop fuel (undoStep (top :: rest))

/-- `restart_m::undo_reverse_pass(heap, ...)` on an already-built heap:
    early return when the heap is empty; the rollback loop when it has
    more than one element; then the drain loop aborting
    (`xct_t::abort()`) and destroying every remaining transaction in heap
    order; finally `log->flush_all()`. -/
def undo_reverse_pass (fuel : Nat) (heap : List UndoXct) :
    Option (List UndoXct × List UEvent) :=
  if heap.length == 0 then some (heap, [])
  else
    match (if 1 < heap.length then undoLoop fuel heap else some heap) with
    | none => none
    | some h =>
        some ([], (h.map (fun x => UEvent.abortXct x.tid)) ++ [UEvent.flushAll])

/-- Sum of the `undoNxt` keys of a heap: the termination measure of the
    rollback loop. -/
def sumUndo (l : List UndoXct) : Nat := (l.map UndoXct.undoNxt).sum

/- ========================== Analysis pass ========================== -/

/-- Buffer-pool control-block state tracked by Analysis: the `in_doubt`
    and `used` flags and `rec_lsn` (pages are registered, never loaded). -/
structure acb where
  in_doubt : Bool
  used : Bool
  rec_lsn : Nat
  deriving DecidableEq, Repr

/-- Hashtable lookup over the Analysis buffer pool. -/
def abfFind (bp : List (BfKey × acb)) (k : BfKey) : Option acb :=
  (bp.find? (fun e => e.1 == k)).map (fun e => e.2)

/-- Write back an Analysis control block under its key. -/
def abfSet (bp : List (BfKey × acb)) (k : BfKey) (cb : acb) : List (BfKey × acb) :=
  bp.map (fun e => if e.1 == k then (e.1, cb) else e)

/-- Modelled from the spec: `bf->register_and_mark(idx, pid, lsn,
    in_doubt_count)` (buffer-pool interface, implemented outside this
    file) registers the page as in-doubt and used with the given
    `rec_lsn`, and is idempotent: when the page is already in-doubt it
    only lowers `rec_lsn`; `in_doubt_count` counts newly marked pages. -/
def registerAndMark (bp : List (BfKey × acb)) (p : Pid) (lsn cnt : Nat) :
    List (BfKey × acb) × Nat :=
  match abfFind bp (bfKeyOf p) with
  | some cb =>
      if cb.in_doubt then
        (abfSet bp (bfKeyOf p) { cb with rec_lsn := min cb.rec_lsn lsn }, cnt)
      else
        (abfSet bp (bfKeyOf p)
           { cb with in_doubt := true, used := true, rec_lsn := lsn }, cnt + 1)
  | none => ((bfKeyOf p, ⟨true, true, lsn⟩) :: bp, cnt + 1)

/-- Modelled from the spec: `bf->clear_in_doubt(idx, keep_used, key)`
    (buffer-pool interface): clear the in-doubt flag, keeping the block
    in the hashtable for a page allocation and releasing it for a page
    deallocation. -/
def clearInDoubt (bp : List (BfKey × acb)) (k : BfKey) (keep_used : Bool) :
    List (BfKey × acb) :=
  if keep_used then
    bp.map (fun e => if e.1 == k then (e.1, { e.2 with in_doubt := false }) else e)
  else bp.filter (fun e => !(e.1 == k))

/-- Fatal outcomes of the Analysis pass. -/
inductive AFatal where
  | scanFail
  | notChkptBegin
  | badLsnCk
  | ssxNotRedo
  | ssxPageZero
  | ssxPageZero2
  | ssxNullPid
  | bfTabPageZero
  | masterMismatch
  | nullXctDeref
  | groupXctMissing
  | undoableCompensation
  | updateNotRedo
  | updatePageZero
  | cpsnPageZero
  | unknownKind
  | missingRedoLsn
  | missingUndoLsn
  | fetchFail
  | replayFuelOut
  | sweepBadState
  deriving DecidableEq, Repr

/-- State threaded through the Analysis forward scan. -/
structure AState where
  xcts : List xct_t
  bp : List (BfKey × acb)
  in_doubt_count : Nat
  redo_lsn : Nat
  undo_lsn : Nat
  begin_chkpt : Nat
  last_lsn : Nat
  num_chkpt_end_handled : Nat
  mounted : List Nat
  next_tid : Nat
  deriving DecidableEq, Repr

/-- `xct_t::update_youngest_tid`: keep the global tid counter ahead. -/
def updateYoungest (st : AState) (t : Nat) : AState :=
  { st with next_tid := max st.next_tid t }

/-- Transition a transaction to `xct_ended` unless it is there already. -/
def endIfNotEnded (x : xct_t) : xct_t :=
  if x.state == XState.ended then x else { x with state := .ended }

/-- `r.redo(0)` of a mount/dismount record: `io_m::mount` / `io_m::dismount`
    on the mounted-volume set. -/
def mountRedo (r : logrec_t) (mounted : List Nat) : List Nat :=
  if r.rtype == .mount_vol then r.dev_tab ++ mounted
  else if r.rtype == .dismount_vol then
    mounted.filter (fun v => !(r.dev_tab.contains v))
  else mounted

/-- The single-log system-transaction branch of the Analysis scan:
    synthesize a completed system transaction (fresh tid, marked ended at
    the end of the branch), require the record to be redo-only, handle
    page allocation/deallocation by clearing the in-doubt flag, otherwise
    register the page (and the second page of a multi-page record) as
    in-doubt. -/
def stepSsx (st0 : AState) (lsn : Nat) (r : logrec_t) : Except AFatal AState :=
  match (if !r.is_redo then Except.error AFatal.ssxNotRedo
         else if r.is_page_allocate || r.is_page_deallocate then
           match abfFind st0.bp (bfKeyOf r.pid) with
           | some cb =>
               if cb.in_doubt then
                 Except.ok (clearInDoubt st0.bp (bfKeyOf r.pid) r.is_page_allocate,
                            st0.in_doubt_count - 1)
               else Except.ok (st0.bp, st0.in_doubt_count)
           | none => Except.ok (st0.bp, st0.in_doubt_count)
         else if !r.is_skip then
           (if !r.null_pid then
             (if r.pid.page == 0 then Except.error AFatal.ssxPageZero
              else if r.is_multi_page then
                (if r.pid2.page == 0 then Except.error AFatal.ssxPageZero2
                 else Except.ok (registerAndMark
                   (registerAndMark st0.bp r.pid lsn st0.in_doubt_count).1 r.pid2
                   lsn (registerAndMark st0.bp r.pid lsn st0.in_doubt_count).2))
              else Except.ok (registerAndMark st0.bp r.pid lsn st0.in_doubt_count))
            else Except.error AFatal.ssxNullPid)
         else Except.ok (st0.bp, st0.in_doubt_count) :
         Except AFatal (List (BfKey × acb) × Nat)) with
  | .error e => .error e
  | .ok pc =>
      .ok { st0 with next_tid := st0.next_tid + 1, bp := pc.1,
                     in_doubt_count := pc.2,
                     xcts := { tid := st0.next_tid + 1, state := .ended,
                               last_lsn := lsn, first_lsn := 0, undo_nxt := 0,
                               sys_xct := true, single_log_sys_xct := true,
                               doomed := true } :: st0.xcts }

/-- The `is_page_update` arm of the update-record case: bump `undo_nxt`
    for an undoable record (a null tid is a null-pointer dereference),
    require redo, then clear the in-doubt flag for page
    allocation/deallocation or register the page as in-doubt. -/
def stepPageUpdate (st0 : AState) (lsn : Nat) (r : logrec_t) :
    Except AFatal AState :=
  if r.is_undo && (r.tid == 0) then .error .nullXctDeref
  else
    match (if r.is_undo then
             { st0 with xcts :=
                 xctUpdate st0.xcts r.tid (fun x => { x with undo_nxt := lsn }) }
           else st0) with
    | st =>
      if !r.is_redo then .error .updateNotRedo
      else if r.is_page_allocate || r.is_page_deallocate then
        match abfFind st.bp (bfKeyOf r.pid) with
        | some cb =>
            if cb.in_doubt then
              .ok { st with
                    bp := clearInDoubt st.bp (bfKeyOf r.pid) r.is_page_allocate,
                    in_doubt_count := st.in_doubt_count - 1 }
            else .ok st
        | none => .ok st
      else if r.pid.page == 0 then .error .updatePageZero
      else .ok { st with
                 bp := (registerAndMark st.bp r.pid lsn st.in_doubt_count).1,
                 in_doubt_count :=
                   (registerAndMark st.bp r.pid lsn st.in_doubt_count).2 }

/-- The compensation (CLR) arm of the update-record case: an undoable
    compensation is fatal; otherwise the transaction's `undo_nxt` is set
    to null (compensations are redo-only) and, when the record is
    redoable, its page is registered as in-doubt. -/
def stepCpsn (st0 : AState) (lsn : Nat) (r : logrec_t) :
    Except AFatal AState :=
  if r.is_undo then .error .undoableCompensation
  else if r.tid == 0 then .error .nullXctDeref
  else
    match { st0 with xcts :=
              xctUpdate st0.xcts r.tid (fun x => { x with undo_nxt := 0 }) } with
    | st =>
      if r.is_redo then
        if r.pid.page == 0 then .error .cpsnPageZero
        else .ok { st with
                   bp := (registerAndMark st.bp r.pid lsn st.in_doubt_count).1,
                   in_doubt_count :=
                     (registerAndMark st.bp r.pid lsn st.in_doubt_count).2 }
      else .ok st

/-- The shared case body for update-style records (`t_compensate` through
    `t_btree_foster_deadopt` and `t_store_operation`), including the
    trailing `first_lsn = min(first_lsn, lsn)` refresh of the attached
    transaction. -/
def stepUpdate (st0 : AState) (lsn : Nat) (r : logrec_t) :
    Except AFatal AState :=
  match (if r.is_page_update then stepPageUpdate st0 lsn r
         else if r.is_cpsn then stepCpsn st0 lsn r
         else if !(r.rtype == .store_operation) then .error .unknownKind
         else .ok st0) with
  | .error e => .error e
  | .ok st =>
      if r.tid == 0 then .ok st
      else .ok { st with xcts := (xctUpdate st.xcts r.tid (fun x =>
                   if lsn < x.first_lsn then { x with first_lsn := lsn }
                   else x)) }

/-- Registration of the `(pid, rec_lsn)` entries of a chkpt-buffer-table
    payload. -/
def chkptBfTab : List ChkptBfEntry → List (BfKey × acb) → Nat →
    Except AFatal (List (BfKey × acb) × Nat)
  | [], bp, c => .ok (bp, c)
  | e :: rest, bp, c =>
      if e.pid.page == 0 then .error .bfTabPageZero
      else chkptBfTab rest (registerAndMark bp e.pid e.rec_lsn c).1
             (registerAndMark bp e.pid e.rec_lsn c).2

/-- Insertion of the not-yet-ended transactions of a
    chkpt-transaction-table payload into the transaction table. -/
def chkptXctTab : List ChkptXctEntry → List xct_t → List xct_t
  | [], tbl => tbl
  | e :: rest, tbl =>
      chkptXctTab rest
        (match xctLookup tbl e.tid with
         | some _ => tbl
         | none =>
             if e.state == XState.ended then tbl
             else { tid := e.tid, state := .active, last_lsn := e.last_lsn,
                    first_lsn := e.first_lsn, undo_nxt := e.undo_nxt,
                    sys_xct := false, single_log_sys_xct := false,
                    doomed := true } :: tbl)

/-- The per-transaction work of a `t_xct_end_group` record: each listed
    transaction must exist (else fatal) and is transitioned to ended
    (releasing its locks when it was freeing space or aborting). -/
def groupEnd : List Nat → List xct_t → Except AFatal (List xct_t)
  | [], tbl => .ok tbl
  | t :: rest, tbl =>
      match xctLookup tbl t with
      | none => .error .groupXctMissing
      | some _ => groupEnd rest (xctUpdate tbl t endIfNotEnded)

/-- The kind dispatch (`switch (r.type())`) of the Analysis scan for a
    non-system-transaction record. -/
def stepSwitch (master : Nat) (st : AState) (lsn : Nat) (r : logrec_t) :
    Except AFatal AState :=
  match r.rtype with
  | .chkpt_begin => .ok st
  | .chkpt_bf_tab =>
      if st.num_chkpt_end_handled == 0 then
        match chkptBfTab r.bf_tab st.bp st.in_doubt_count with
        | .error e => .error e
        | .ok pc => .ok { st with bp := pc.1, in_doubt_count := pc.2 }
      else .ok st
  | .chkpt_xct_tab =>
      if st.num_chkpt_end_handled == 0 then
        .ok { st with next_tid := max st.next_tid r.youngest,
                      xcts := chkptXctTab r.xct_tab st.xcts }
      else .ok st
  | .chkpt_dev_tab =>
      if st.num_chkpt_end_handled == 0 then
        .ok { st with mounted := r.dev_tab ++ st.mounted }
      else .ok st
  | .mount_vol | .dismount_vol =>
      -- perform mounts/dismounts below the redo start point only
      if lsn < st.redo_lsn then .ok { st with mounted := mountRedo r st.mounted }
      else .ok st
  | .chkpt_end =>
      match (if st.num_chkpt_end_handled == 0 then
               (if master == r.end_base then
                  Except.ok { st with begin_chkpt := r.end_base,
                                      redo_lsn := r.end_min_rec,
                                      undo_lsn := r.end_min_xct }
                else Except.error AFatal.masterMismatch)
             else Except.ok st) with
      | .error e => .error e
      | .ok st1 =>
          .ok { st1 with num_chkpt_end_handled := st1.num_chkpt_end_handled + 1 }
  | .xct_freeing_space =>
      if r.tid == 0 then .error .nullXctDeref
      else .ok { st with xcts := xctUpdate st.xcts r.tid endIfNotEnded }
  | .xct_end_group =>
      match groupEnd r.group_tids st.xcts with
      | .error e => .error e
      | .ok tbl => .ok { st with xcts := tbl }
  | .xct_abort =>
      if r.tid == 0 then .error .nullXctDeref
      else .ok { st with xcts := xctUpdate st.xcts r.tid endIfNotEnded }
  | .xct_end =>
      if r.tid == 0 then .error .nullXctDeref
      else .ok { st with xcts := xctUpdate st.xcts r.tid endIfNotEnded }
  | .comment => .ok st
  | .skip => .ok st
  | .max_logrec => .ok st
  | _ => stepUpdate st lsn r

/-- One iteration of the Analysis forward-scan loop for the record at
    `lsn`: LSN integrity check, `last_lsn` refresh, the system-transaction
    branch, the transaction-table insert/refresh preamble, and the kind
    dispatch. -/
def analysisStep (maxLsn master : Nat) (st : AState) (lsn : Nat) (r : logrec_t) :
    Except AFatal AState :=
  if !(lsn == r.lsn_ck) then .error .badLsnCk
  else
    let st := { st with last_lsn := lsn }
    if r.is_single_sys_xct then stepSsx st lsn r
    else
      let st :=
        if !(r.tid == 0) && (xctLookup st.xcts r.tid).isNone &&
           !(r.rtype == .comment) && !(r.rtype == .skip) &&
           !(r.rtype == .max_logrec) then
          { st with
            xcts := { tid := r.tid, state := .active, last_lsn := lsn,
                      first_lsn := maxLsn, undo_nxt := r.xid_prev,
                      sys_xct := false, single_log_sys_xct := false,
                      doomed := true } :: st.xcts,
            next_tid := max st.next_tid r.tid }
        else if !(r.tid == 0) && (xctLookup st.xcts r.tid).isSome then
          { st with xcts := xctUpdate st.xcts r.tid (fun x => { x with last_lsn := lsn }) }
        else st
      stepSwitch master st lsn r

/-- The Analysis forward scan over the records after the master
    begin-checkpoint. -/
def analysisScan (maxLsn master : Nat) :
    List (Nat × logrec_t) → AState → Except AFatal AState
  | [], st => .ok st
  | (lsn, r) :: rest, st =>
      match analysisStep maxLsn master st lsn r with
      | .error e => .error e
      | .ok st' => analysisScan maxLsn master rest st'

/-- `log->fetch(lsn)` over the embedded log. -/
def fetchRec (recs : List (Nat × logrec_t)) (lsn : Nat) : Option logrec_t :=
  (recs.find? (fun p => p.1 == lsn)).map (fun p => p.2)

/-- The mount/dismount replay loop after the scan: chase the `xid_prev`
    chain from the chkpt-begin's last-mount LSN down to `redo_lsn`,
    applying dismount records as mounts and mount records as dismounts
    (fuel bounds the chain walk). -/
def mountReplay (recs : List (Nat × logrec_t)) (redoLsn : Nat) :
    Nat → Nat → List Nat → Except AFatal (Nat × List Nat)
  | 0, _, _ => .error .replayFuelOut
  | fuel + 1, cur, mounted =>
      if !(cur == 0) && redoLsn < cur then
        match fetchRec recs cur with
        | none => .error .fetchFail
        | some c =>
            let mounted' :=
              if c.rtype == .dismount_vol then c.dev_tab ++ mounted
              else mounted.filter (fun v => !(c.dev_tab.contains v))
            mountReplay recs redoLsn fuel c.xid_prev mounted'
      else .ok (cur, mounted)

/-- The transaction-table sweep at the end of Analysis: ended entries are
    destroyed; active (doomed) entries lower `commit_lsn` to their
    `first_lsn`, get their `first_lsn` nulled and (serial mode) are pushed
    onto the Undo Heap; any other state is fatal. Returns the surviving
    table, the heap contents and the final `commit_lsn` accumulator. -/
def analysisSweep (serial : Bool) :
    List xct_t → Nat → Except AFatal (List xct_t × List xct_t × Nat)
  | [], commit => .ok ([], [], commit)
  | x :: rest, commit =>
      if x.state == XState.active then
        let commit' := if x.first_lsn < commit then x.first_lsn else commit
        let x' := { x with first_lsn := 0 }
        match analysisSweep serial rest commit' with
        | .error e => .error e
        | .ok (tbl, hp, c) => .ok (x' :: tbl, (if serial then x' :: hp else hp), c)
      else if x.state == XState.ended then analysisSweep serial rest commit
      else .error .sweepBadState

/-- Outputs of `restart_m::analysis_pass`. -/
structure ARes where
  xcts : List xct_t
  heap : List xct_t
  bp : List (BfKey × acb)
  in_doubt_count : Nat
  redo_lsn : Nat
  undo_lsn : Nat
  commit_lsn : Nat
  last_lsn : Nat
  mounted : List Nat
  lastMountLsn : Nat
  deriving DecidableEq, Repr

/-- All of `restart_m::analysis_pass` up to (not including) the final
    transaction-table sweep: the begin-checkpoint requirement on the first
    record, the forward scan, the missing-`redo_lsn`/`undo_lsn` checks,
    clamping both to `master`, and the mount/dismount replay (run only
    when there are in-doubt pages). Returns the pre-sweep state and the
    final last-mount LSN. -/
def analysisPrep (master currLsn : Nat) (recs : List (Nat × logrec_t)) :
    Except AFatal (AState × Nat) :=
  match recs with
  | [] => .error .scanFail
  | (_, r0) :: rest =>
      if !(r0.rtype == .chkpt_begin) then .error .notChkptBegin
      else
        let st0 : AState :=
          { xcts := [], bp := [], in_doubt_count := 0,
            redo_lsn := 0, undo_lsn := 0, begin_chkpt := 0, last_lsn := 0,
            num_chkpt_end_handled := 0, mounted := [], next_tid := 0 }
        match analysisScan (currLsn + 1) master rest st0 with
        | .error e => .error e
        | .ok st =>
            if st.redo_lsn == 0 then .error .missingRedoLsn
            else if st.undo_lsn == 0 then .error .missingUndoLsn
            else
              let st := { st with redo_lsn := min st.redo_lsn master,
                                  undo_lsn := min st.undo_lsn master }
              if !(st.in_doubt_count == 0) then
                match mountReplay recs st.redo_lsn (recs.length + 1)
                        r0.lastMount st.mounted with
                | .error e => .error e
                | .ok (lm, mounted') => .ok ({ st with mounted := mounted' }, lm)
              else .ok (st, r0.lastMount)

/-- `restart_m::analysis_pass(master, redo_lsn, in_doubt_count, undo_lsn,
    heap, commit_lsn, last_lsn)`: a null master returns immediately with
    all-null outputs; otherwise the scan (analysisPrep), the sweep, and
    the final normalization `commit_lsn := null` when no doomed
    transaction lowered it from its `max_lsn = curr_lsn + 1` sentinel. -/
def analysis_pass (serial : Bool) (master currLsn : Nat)
    (recs : List (Nat × logrec_t)) : Except AFatal ARes :=
  if master == 0 then
    .ok { xcts := [], heap := [], bp := [], in_doubt_count := 0, redo_lsn := 0,
          undo_lsn := 0, commit_lsn := 0, last_lsn := 0, mounted := [],
          lastMountLsn := 0 }
  else
    match analysisPrep master currLsn recs with
    | .error e => .error e
    | .ok (st, lm) =>
        match analysisSweep serial st.xcts (currLsn + 1) with
        | .error e => .error e
        | .ok (tbl, hp, commit) =>
            .ok { xcts := tbl, heap := hp, bp := st.bp,
                  in_doubt_count := st.in_doubt_count,
                  redo_lsn := st.redo_lsn, undo_lsn := st.undo_lsn,
                  commit_lsn := if commit == currLsn + 1 then 0 else commit,
                  last_lsn := st.last_lsn, mounted := st.mounted,
                  lastMountLsn := lm }

/- ==================== Statement-level predicates ==================== -/

/-- The active (doomed) entries of a transaction table. -/
def activeOf (l : List xct_t) : List xct_t :=
  l.filter (fun x => x.state == XState.active)

/-- Well-formedness of one scanned log element `(lsn, record)` for a scan
    whose `max_lsn` sentinel is `maxLsn = curr_lsn + 1`: the LSN is a real
    position inside the log (`0 < lsn ≤ curr_lsn`); records written
    without an attached transaction (checkpoint, mount/dismount, group
    end) indeed carry a null tid; and checkpoint transaction-table entries
    for unfinished transactions carry a real `first_lsn` inside the log. -/
def wfLogRec (maxLsn : Nat) (p : Nat × logrec_t) : Prop :=
  0 < p.1 ∧ p.1 < maxLsn ∧
  ((p.2.rtype = .chkpt_begin ∨ p.2.rtype = .chkpt_bf_tab ∨
    p.2.rtype = .chkpt_xct_tab ∨ p.2.rtype = .chkpt_dev_tab ∨
    p.2.rtype = .chkpt_end ∨ p.2.rtype = .mount_vol ∨
    p.2.rtype = .dismount_vol ∨ p.2.rtype = .xct_end_group) → p.2.tid = 0) ∧
  (∀ e ∈ p.2.xct_tab, e.state ≠ XState.ended →
     0 < e.first_lsn ∧ e.first_lsn < maxLsn)

/-- Invariant over the Analysis transaction table: every active entry
    carries a real `first_lsn` below the `max_lsn` sentinel. -/
def goodTable (maxLsn : Nat) (l : List xct_t) : Prop :=
  ∀ x ∈ l, x.state = XState.active → 0 < x.first_lsn ∧ x.first_lsn < maxLsn

/-- Weakening of `goodTable` to mid-step states: an active entry either
    carries a real `first_lsn` or is the freshly inserted entry of the
    record being processed (tid `t`, `first_lsn` still the sentinel). -/
def goodTableAt (maxLsn t : Nat) (l : List xct_t) : Prop :=
  ∀ x ∈ l, x.state = XState.active →
    (0 < x.first_lsn ∧ x.first_lsn < maxLsn) ∨
    (x.first_lsn = maxLsn ∧ x.tid = t)

/-- A transaction's undo_next chain is strictly decreasing and made of
    real (non-null) LSNs. -/
def strictChain (l : List Nat) : Prop :=
  l.Pairwise (fun a b => b < a) ∧ ∀ e ∈ l, 0 < e

/-- Undo chains of distinct in-flight transactions are disjoint (each log
    record belongs to exactly one transaction). -/
def disjointChains (h : List UndoXct) : Prop :=
  h.Pairwise (fun a b => ∀ e ∈ a.chain, e ∉ b.chain)

/-- The Undo Heap representation invariant: descending `undoNxt` order. -/
def heapSorted (h : List UndoXct) : Prop :=
  h.Pairwise (fun a b => b.undoNxt ≤ a.undoNxt)

/- =================== Sample values for witnesses =================== -/

/-- A two-transaction input for the reverse-undo example: strictly
    decreasing, positive, disjoint undo chains. -/
def sampleHeap : List UndoXct :=
  [{ tid := 1, sys_xct := false, single_log_sys_xct := false, chain := [3] },
   { tid := 2, sys_xct := false, single_log_sys_xct := false,
     chain := [5, 2] }]

/-- A baseline log record with every field null; concrete records in
    examples are built from it by updating fields. -/
def emptyRec : logrec_t :=
  { rtype := .comment, lsn_ck := 0, tid := 0, xid_prev := 0,
    pid := ⟨0, 0, 0⟩, pid2 := ⟨0, 0, 0⟩,
    is_single_sys_xct := false, is_redo := false, is_undo := false,
    is_cpsn := false, is_multi_page := false, is_page_update := false,
    lastMount := 0, bf_tab := [], youngest := 0, xct_tab := [],
    dev_tab := [], end_base := 0, end_min_rec := 0, end_min_xct := 0,
    group_tids := [] }

/-- An empty Redo-pass state. -/
def rstate0 : RState :=
  { bp := [], dirty_count := 0, processed := [], mounted := [], lastMountLsn := 0 }

/-- A doomed active transaction whose `undo_nxt` is null (its last log
    record was a compensation). -/
def cexDoomedXct : xct_t :=
  { tid := 7, state := .active, last_lsn := 9, first_lsn := 0, undo_nxt := 0,
    sys_xct := false, single_log_sys_xct := false, doomed := true }

/-- A redoable B-tree insert record at LSN 5 touching page (1,42). -/
def sampleRedoRec : logrec_t :=
  { emptyRec with rtype := .btree_insert, is_redo := true, lsn_ck := 5,
                  pid := ⟨1, 0, 42⟩ }

/-- An in-doubt control block with on-page state not yet loaded. -/
def sampleCb : rcb :=
  { in_doubt := true, dirty := false, used := true, rec_lsn := 7, page_lsn := 0 }

/-- A one-page buffer pool for the redo examples. -/
def sampleBp : List (BfKey × rcb) := [((1, 42), sampleCb)]

/-- A disk oracle: every page loads with last-write LSN 3. -/
def sampleDisk : BfKey → LoadRes := fun _ => LoadRes.ok 3

/-- A single-page-repair oracle that reconstructs to LSN 0. -/
def sampleSpr : BfKey → Nat → Nat := fun _ _ => 0

/-- A chkpt-end record at LSN 4. -/
def sampleChkEndRec : logrec_t :=
  { emptyRec with rtype := .chkpt_end, lsn_ck := 4 }

/-- An Analysis state that has already handled the master's chkpt-end. -/
def sampleAState : AState :=
  { xcts := [], bp := [], in_doubt_count := 0, redo_lsn := 1, undo_lsn := 1,
    begin_chkpt := 2, last_lsn := 3, num_chkpt_end_handled := 1, mounted := [],
    next_tid := 0 }

/-- A three-record log for the Analysis example: the master begin
    checkpoint at LSN 1, one store-operation update of transaction 7 at
    LSN 2, and the matching end checkpoint at LSN 3. -/
def sampleLog : List (Nat × logrec_t) :=
  [(1, { emptyRec with rtype := .chkpt_begin, lsn_ck := 1 }),
   (2, { emptyRec with rtype := .store_operation, lsn_ck := 2, tid := 7 }),
   (3, { emptyRec with rtype := .chkpt_end, lsn_ck := 3, end_base := 1,
                       end_min_rec := 1, end_min_xct := 1 })]

/-- The Analysis output on `sampleLog` (master 1, current LSN 3):
    transaction 7 is doomed with scan-time `first_lsn` 2, so the table
    keeps it with `first_lsn` nulled and `commit_lsn` is 2. -/
def sampleARes : ARes :=
  { xcts := [{ tid := 7, state := .active, last_lsn := 2, first_lsn := 0,
               undo_nxt := 0, sys_xct := false, single_log_sys_xct := false,
               doomed := true }],
    heap := [], bp := [], in_doubt_count := 0, redo_lsn := 1, undo_lsn := 1,
    commit_lsn := 2, last_lsn := 3, mounted := [], lastMountLsn := 0 }

/-- A non-undoable, redoable compensation record of transaction 5 at LSN 6
    touching page (1,9). -/
def sampleCpsnRec : logrec_t :=
  { emptyRec with rtype := .compensate, is_cpsn := true, is_redo := true,
                  tid := 5, lsn_ck := 6, pid := ⟨1, 0, 9⟩ }

/-- A one-entry transaction table holding a doomed active transaction with
    a non-null `undo_nxt`. -/
def sampleUndoTbl : List xct_t :=
  [{ tid := 3, state := .active, last_lsn := 8, first_lsn := 0, undo_nxt := 5,
     sys_xct := false, single_log_sys_xct := false, doomed := true }]

/- ============================ Theorems ============================ -/

/-- C9: In concurrent (non-serial) mode, `recover` returns with pointer
    swizzling still disabled in the buffer pool even when swizzling was
    enabled before recovery started: swizzling is turned off before
    Analysis and deliberately not re-enabled when control is returned to
    the caller after Analysis. -/
theorem C9_concurrent_leaves_swizzling_off (org : Bool) (inD xct : Nat) :
    (recover false org inD xct).swizzlingOn = false ∧
    (recover false true inD xct).trace =
      [REvent.disableSwizzle, REvent.setMode .inAnalysis, REvent.runAnalysis,
       REvent.takeCheckpoint, REvent.ret] := by
  constructor
  · cases org <;> rfl
  · rfl

/-- C5 counterexample: under the serial policy with no in-doubt pages and
    no doomed transactions, the coordinator does not execute the claimed
    sequence — in particular `redo_log_pass`, `undo_reverse_pass` and the
    post-Undo synchronous checkpoint are all skipped. -/
theorem C5_cex_no_post_undo_checkpoint :
    subseq
      [REvent.runAnalysis, REvent.takeCheckpoint, REvent.setMode .inRedo,
       REvent.runRedoLogPass, REvent.setMode .inUndo, REvent.runUndoReversePass,
       REvent.takeCheckpoint, REvent.enableSwizzle, REvent.ret]
      (recover true true 0 0).trace = false ∧
    (recover true true 0 0).trace.count REvent.takeCheckpoint = 1 := by
  decide

/-- C5 (amended): under the serial policy the coordinator, after Analysis
    and its checkpoint, sets mode in-redo, runs log-driven Redo followed by
    a buffer-pool flush when Analysis left in-doubt pages, sets mode
    in-undo, runs reverse Undo followed by a synchronous checkpoint when
    Analysis left doomed transactions, restores swizzling to its
    pre-recovery setting, and returns; with no doomed transactions the
    post-Undo checkpoint is skipped. -/
theorem C5_serial_sequence (org : Bool) (inD xct : Nat)
    (h1 : inD ≠ 0) (h2 : xct ≠ 0) :
    subseq
      [REvent.runAnalysis, REvent.takeCheckpoint, REvent.setMode .inRedo,
       REvent.runRedoLogPass, REvent.forceAllBuffers, REvent.setMode .inUndo,
       REvent.runUndoReversePass, REvent.takeCheckpoint, REvent.ret]
      (recover true org inD xct).trace = true ∧
    (recover true org inD xct).swizzlingOn = org ∧
    (recover true org inD 0).trace.count REvent.takeCheckpoint = 1 := by
  cases org <;> simp [recover, h1, h2] <;> decide

/-- C5 witness. -/
theorem C5_serial_sequence_witness :
    (1 : Nat) ≠ 0 ∧
    (subseq
      [REvent.runAnalysis, REvent.takeCheckpoint, REvent.setMode .inRedo,
       REvent.runRedoLogPass, REvent.forceAllBuffers, REvent.setMode .inUndo,
       REvent.runUndoReversePass, REvent.takeCheckpoint, REvent.ret]
      (recover true true 1 1).trace = true ∧
     (recover true true 1 1).swizzlingOn = true ∧
     (recover true true 1 0).trace.count REvent.takeCheckpoint = 1) :=
  ⟨by decide, C5_serial_sequence true 1 1 (by decide) (by decide)⟩

/-- The scan-loop body never touches the processed-LSN accumulator. -/
theorem redoOne_processed (endL : Nat) (xcts : List xct_t)
    (disk : BfKey → LoadRes) (spr : BfKey → Nat → Nat)
    (lsn : Nat) (r : logrec_t) (st st' : RState)
    (h : redoOne endL xcts disk spr lsn r st = .ok st') :
    st'.processed = st.processed := by
  unfold redoOne at h
  repeat' split at h
  all_goals first
    | (cases h; rfl)
    | simp_all

/-- Stepping the non-serial redo scan over a record at or below the
    end-of-log LSN. -/
theorem redoScan_cons_le (endL : Nat) (xcts : List xct_t)
    (disk : BfKey → LoadRes) (spr : BfKey → Nat → Nat)
    (lsn : Nat) (r : logrec_t) (rest : List (Nat × logrec_t)) (st0 : RState)
    (hle : lsn ≤ endL) :
    redoScan false endL xcts disk spr ((lsn, r) :: rest) st0 =
      (if lsn = r.lsn_ck then
        (match redoOne endL xcts disk spr lsn r
             { st0 with processed := st0.processed ++ [lsn] } with
         | .error e => .error e
         | .ok st' => redoScan false endL xcts disk spr rest st')
       else .error .invalidHeader) := by
  simp only [redoScan]
  have hc : (!false && decide (endL < lsn)) = false := by
    simp [not_lt.mpr hle]
  rw [hc]
  by_cases hck : lsn = r.lsn_ck
  · simp [hck]
  · simp [hck]

/-- The non-serial redo scan breaks at a record above the end-of-log LSN. -/
theorem redoScan_cons_gt (endL : Nat) (xcts : List xct_t)
    (disk : BfKey → LoadRes) (spr : BfKey → Nat → Nat)
    (lsn : Nat) (r : logrec_t) (rest : List (Nat × logrec_t)) (st0 : RState)
    (hgt : endL < lsn) :
    redoScan false endL xcts disk spr ((lsn, r) :: rest) st0 = .ok st0 := by
  simp only [redoScan]
  have hc : (!false && decide (endL < lsn)) = true := by simp [hgt]
  rw [hc]
  simp

/-- Processed-LSN bookkeeping of the redo scan over a prefix that stays at
    or below the end-of-log LSN. -/
theorem redoScan_processed (endL : Nat) (xcts : List xct_t)
    (disk : BfKey → LoadRes) (spr : BfKey → Nat → Nat) :
    ∀ (recs : List (Nat × logrec_t)) (st0 st' : RState),
      (∀ p ∈ recs, p.1 ≤ endL) →
      redoScan false endL xcts disk spr recs st0 = .ok st' →
      st'.processed = st0.processed ++ recs.map (fun p => p.1)
  | [], st0, st', _, h => by
      simp only [redoScan] at h
      cases h
      simp
  | (lsn, r) :: rest, st0, st', hpre, h => by
      rw [redoScan_cons_le endL xcts disk spr lsn r rest st0
        (hpre (lsn, r) (by simp))] at h
      split at h
      · cases hone : redoOne endL xcts disk spr lsn r
            { st0 with processed := st0.processed ++ [lsn] } with
        | error e => rw [hone] at h; exact absurd h (by simp)
        | ok st1 =>
            rw [hone] at h
            have ih := redoScan_processed endL xcts disk spr rest st1 st'
              (fun p hp => hpre p (List.mem_cons_of_mem _ hp)) h
            have hp1 := redoOne_processed endL xcts disk spr lsn r _ _ hone
            rw [ih, hp1]
            simp
      · exact absurd h (by simp)

/-- C10: In log-driven Redo running in concurrent (non-serial) mode, the
    forward scan terminates at the first log record whose LSN exceeds the
    end-of-log LSN captured when Redo started (`end_logscan_lsn`): the scan
    of the whole log equals the scan of the prefix before that record, so
    records inserted after that point are never processed, and a completed
    scan has processed exactly the LSNs of that prefix. -/
theorem C10_concurrent_scan_stops (endL : Nat) (xcts : List xct_t)
    (disk : BfKey → LoadRes) (spr : BfKey → Nat → Nat)
    (pre post : List (Nat × logrec_t)) (x : Nat × logrec_t) (st0 : RState)
    (hpre : ∀ p ∈ pre, p.1 ≤ endL) (hx : endL < x.1) :
    redoScan false endL xcts disk spr (pre ++ x :: post) st0 =
      redoScan false endL xcts disk spr pre st0 ∧
    (∀ st', redoScan false endL xcts disk spr (pre ++ x :: post) st0 = .ok st' →
       st'.processed = st0.processed ++ pre.map (fun p => p.1)) := by
  have key : ∀ (pr : List (Nat × logrec_t)) (st : RState),
      (∀ p ∈ pr, p.1 ≤ endL) →
      redoScan false endL xcts disk spr (pr ++ x :: post) st =
        redoScan false endL xcts disk spr pr st := by
    intro pr
    induction pr with
    | nil =>
        intro st _
        cases x with
        | mk xl xr =>
            rw [List.nil_append, redoScan_cons_gt endL xcts disk spr xl xr post st hx]
            simp [redoScan]
    | cons p ps ih =>
        intro st hall
        cases p with
        | mk lsn r =>
            have hle : lsn ≤ endL := hall (lsn, r) (by simp)
            rw [List.cons_append,
              redoScan_cons_le endL xcts disk spr lsn r (ps ++ x :: post) st hle,
              redoScan_cons_le endL xcts disk spr lsn r ps st hle]
            by_cases hck : lsn = r.lsn_ck
            · rw [if_pos hck, if_pos hck]
              cases hone : redoOne endL xcts disk spr lsn r
                  { st with processed := st.processed ++ [lsn] } with
              | error e => rfl
              | ok st1 => exact ih st1 (fun q hq => hall q (List.mem_cons_of_mem _ hq))
            · rw [if_neg hck, if_neg hck]
  refine ⟨key pre st0 hpre, fun st' h => ?_⟩
  rw [key pre st0 hpre] at h
  exact redoScan_processed endL xcts disk spr pre st0 st' hpre h

/-- C10 witness. -/
theorem C10_concurrent_scan_stops_witness :
    (∀ p ∈ ([] : List (Nat × logrec_t)), p.1 ≤ 3) ∧ (3 : Nat) < 5 ∧
    (redoScan false 3 [] (fun _ => LoadRes.pastEnd) (fun _ _ => 0)
        ([] ++ (5, emptyRec) :: []) rstate0 =
      redoScan false 3 [] (fun _ => LoadRes.pastEnd) (fun _ _ => 0) [] rstate0 ∧
     (∀ st', redoScan false 3 [] (fun _ => LoadRes.pastEnd) (fun _ _ => 0)
        ([] ++ (5, emptyRec) :: []) rstate0 = .ok st' →
        st'.processed = rstate0.processed ++
          ([] : List (Nat × logrec_t)).map (fun p => p.1))) :=
  ⟨by simp, by decide,
   C10_concurrent_scan_stops 3 [] (fun _ => LoadRes.pastEnd) (fun _ _ => 0)
     [] [] (5, emptyRec) rstate0 (by simp) (by decide)⟩

/-- C8: At the end of the log-driven Redo scan the number of pages
    transitioned from in-doubt to dirty (`dirty_count`) must equal the
    `in_doubt_count` produced by Analysis: whenever `redo_log_pass` is
    entered with a nonzero `in_doubt_count`, a non-fatal completion implies
    the counts agree, and a completed scan with disagreeing counts makes
    the pass end with the fatal count-mismatch error (recovery does not
    continue). -/
theorem C8_dirty_count_must_match (serial cfg : Bool) (endL inD : Nat)
    (xcts : List xct_t) (disk : BfKey → LoadRes) (spr : BfKey → Nat → Nat)
    (recs : List (Nat × logrec_t)) (st0 : RState)
    (hinD : inD ≠ 0) (hcfg : cfg = true) :
    (∀ st', redo_log_pass serial cfg endL inD xcts disk spr recs st0 = .ok st' →
       st'.dirty_count = inD) ∧
    (∀ st', redoScan serial endL xcts disk spr recs st0 = .ok st' →
       st'.dirty_count ≠ inD →
       redo_log_pass serial cfg endL inD xcts disk spr recs st0 =
         .error .dirtyCountMismatch) := by
  subst hcfg
  have h0 : (inD == 0) = false := by simpa using hinD
  constructor
  · intro st' h
    unfold redo_log_pass at h
    rw [h0] at h
    cases hscan : redoScan serial endL xcts disk spr recs st0 with
    | error e => rw [hscan] at h; simp at h
    | ok st1 =>
        rw [hscan] at h
        by_cases he : inD = st1.dirty_count
        · have hb : (inD == st1.dirty_count) = true := by simpa using he
          simp only [Bool.false_eq_true, if_false, hb, Bool.not_true] at h
          cases h
          omega
        · have hb : (inD == st1.dirty_count) = false := by simpa using he
          simp only [Bool.false_eq_true, if_false, hb, Bool.not_false, if_true] at h
          simp at h
  · intro st' hscan hne
    unfold redo_log_pass
    rw [h0]
    have hb : (inD == st'.dirty_count) = false := by
      simp only [beq_eq_false_iff_ne, ne_eq]
      omega
    simp only [Bool.false_eq_true, if_false, hscan, hb, Bool.not_false, if_true]
    simp

/-- C8 witness. -/
theorem C8_dirty_count_must_match_witness :
    (1 : Nat) ≠ 0 ∧ (true = true) ∧
    ((∀ st', redo_log_pass true true 9 1 [] (fun _ => LoadRes.pastEnd)
        (fun _ _ => 0) [] rstate0 = .ok st' → st'.dirty_count = 1) ∧
     (∀ st', redoScan true 9 [] (fun _ => LoadRes.pastEnd) (fun _ _ => 0) []
        rstate0 = .ok st' → st'.dirty_count ≠ 1 →
        redo_log_pass true true 9 1 [] (fun _ => LoadRes.pastEnd) (fun _ _ => 0)
          [] rstate0 = .error .dirtyCountMismatch)) :=
  ⟨by decide, rfl,
   C8_dirty_count_must_match true true 9 1 [] (fun _ => LoadRes.pastEnd)
     (fun _ _ => 0) [] rstate0 (by decide) rfl⟩

/-- Closed form of the `_undo_txn_pass` table walk: doomed active normal
    transactions with a non-null `undo_nxt` are aborted and destroyed,
    doomed active system transactions get `undo_nxt` cleared, every other
    entry (including doomed transactions with null `undo_nxt`) stays. -/
theorem undoTxnWalk_spec : ∀ tbl : List xct_t,
    undoTxnWalk tbl =
      (tbl.filterMap (fun x =>
         if x.doomed && x.state == XState.active && !(x.undo_nxt == 0) then
           (if x.sys_xct then some { x with undo_nxt := 0 } else none)
         else some x),
       (tbl.filter (fun x =>
          x.doomed && x.state == XState.active && !(x.undo_nxt == 0) &&
          !x.sys_xct)).map (fun x => UEvent.abortXct x.tid))
  | [] => rfl
  | x :: rest => by
      have ih := undoTxnWalk_spec rest
      by_cases h1 : (x.doomed && x.state == XState.active) = true
      · by_cases h2 : (x.undo_nxt == 0) = true
        · simp only [undoTxnWalk, h1, if_true, h2, Bool.not_true,
            Bool.false_eq_true, if_false, ih, List.filterMap_cons, List.filter_cons]
          simp [h2, Bool.and_comm, Bool.and_assoc, Bool.and_left_comm]
        · have h2' : (!(x.undo_nxt == 0)) = true := by simp_all
          by_cases h3 : x.sys_xct = true
          · simp only [undoTxnWalk, h1, if_true, h2', if_true, h3, ih,
              List.filterMap_cons, List.filter_cons]
            simp_all
          · have h3' : x.sys_xct = false := by simp_all
            simp only [undoTxnWalk, h1, if_true, h2', if_true, h3', ih,
              List.filterMap_cons, List.filter_cons]
            simp_all
      · simp only [undoTxnWalk, h1, Bool.false_eq_true, if_false, ih,
          List.filterMap_cons, List.filter_cons]
        simp_all

/-- C4 counterexample: `_undo_txn_pass` on a table holding one doomed
    active transaction whose `undo_next_lsn` is NULL leaves that
    transaction in the table — it is not destroyed as the claim states. -/
theorem C4_cex_null_undo_next_not_destroyed :
    cexDoomedXct ∈ (undo_txn_pass [cexDoomedXct]).1 ∧
    (undo_txn_pass [cexDoomedXct]).1 = [cexDoomedXct] := by
  decide

/-- C4 (amended): In transaction-driven Undo over a transaction table with
    at least one active entry, every doomed Active non-system transaction
    with non-null `undo_next_lsn` is aborted through the standard
    transaction abort and destroyed; a doomed Active system transaction
    with non-null `undo_next_lsn` only has its `undo_next_lsn` cleared; a
    doomed Active transaction with null `undo_next_lsn` is skipped and
    remains in the table; every other entry is untouched; and after the
    walk the log is forced and the global `commit_lsn` is set to NULL. -/
theorem C4_txn_undo_walk (tbl : List xct_t) (hne : numActiveXcts tbl ≠ 0) :
    (undo_txn_pass tbl).1 =
      tbl.filterMap (fun x =>
        if x.doomed && x.state == XState.active && !(x.undo_nxt == 0) then
          (if x.sys_xct then some { x with undo_nxt := 0 } else none)
        else some x) ∧
    (undo_txn_pass tbl).2 =
      (tbl.filter (fun x =>
         x.doomed && x.state == XState.active && !(x.undo_nxt == 0) &&
         !x.sys_xct)).map (fun x => UEvent.abortXct x.tid) ++
      [UEvent.flushAll, UEvent.setCommitLsnNull] := by
  have h0 : (numActiveXcts tbl == 0) = false := by simpa using hne
  unfold undo_txn_pass
  rw [h0]
  simp only [Bool.false_eq_true, if_false, undoTxnWalk_spec]
  exact ⟨trivial, trivial⟩

/-- C4 witness. -/
theorem C4_txn_undo_walk_witness :
    numActiveXcts sampleUndoTbl ≠ 0 ∧
    ((undo_txn_pass sampleUndoTbl).1 =
      sampleUndoTbl.filterMap (fun x =>
        if x.doomed && x.state == XState.active && !(x.undo_nxt == 0) then
          (if x.sys_xct then some { x with undo_nxt := 0 } else none)
        else some x) ∧
     (undo_txn_pass sampleUndoTbl).2 =
      (sampleUndoTbl.filter (fun x =>
         x.doomed && x.state == XState.active && !(x.undo_nxt == 0) &&
         !x.sys_xct)).map (fun x => UEvent.abortXct x.tid) ++
      [UEvent.flushAll, UEvent.setCommitLsnNull]) :=
  ⟨by decide, C4_txn_undo_walk sampleUndoTbl (by decide)⟩

/-- Lookup at the head key. -/
theorem bfFind_cons_pos (e : BfKey × rcb) (rest : List (BfKey × rcb)) (k : BfKey)
    (he : (e.1 == k) = true) : bfFind (e :: rest) k = some e.2 := by
  unfold bfFind
  simp [List.find?, he]

/-- Lookup skips a non-matching head. -/
theorem bfFind_cons_neg (e : BfKey × rcb) (rest : List (BfKey × rcb)) (k : BfKey)
    (he : (e.1 == k) = false) : bfFind (e :: rest) k = bfFind rest k := by
  unfold bfFind
  simp [List.find?, he]

/-- Writing a control block back under a present key makes the lookup
    return it. -/
theorem bfFind_bfSet_self (k : BfKey) (cb' : rcb) :
    ∀ (bp : List (BfKey × rcb)) (cb : rcb),
      bfFind bp k = some cb → bfFind (bfSet bp k cb') k = some cb'
  | [], cb, h => by simp [bfFind] at h
  | e :: rest, cb, h => by
      by_cases he : (e.1 == k) = true
      · have hset : bfSet (e :: rest) k cb' = (e.1, cb') :: bfSet rest k cb' := by
          simp only [bfSet, List.map_cons]
          rw [if_pos he]
        rw [hset, bfFind_cons_pos (e.1, cb') _ k he]
      · have he' : (e.1 == k) = false := by simpa using he
        have h1 : bfFind rest k = some cb := by
          rwa [bfFind_cons_neg e rest k he'] at h
        have hset : bfSet (e :: rest) k cb' = e :: bfSet rest k cb' := by
          simp only [bfSet, List.map_cons]
          rw [if_neg (by simp [he'])]
        rw [hset, bfFind_cons_neg e _ k he']
        exact bfFind_bfSet_self k cb' rest cb h1

/-- A virgin page's effective last-write LSN is null. -/
theorem effLastWrite_virgin (r : logrec_t) (lsn : Nat) (p : Pid)
    (disk : BfKey → LoadRes) (spr : BfKey → Nat → Nat) (cb : rcb)
    (hv : virginFor r p = true) :
    effLastWrite r lsn p disk spr cb = some 0 := by
  simp [effLastWrite, hv]

/-- C1: In log-driven Redo, for a record with `is_redo` set whose page is
    found in the buffer pool in-doubt or dirty (and whose load, when one is
    needed, does not fail): the record's redo function is applied to the
    page iff the page's effective last-write LSN is strictly below the
    record's LSN, and then the page's last-write LSN becomes the record's
    LSN; if instead the page's last-write LSN is at or above the
    end-of-log LSN the pass raises the fatal WAL-violation error; and
    otherwise (page LSN at or past the record but below end-of-log) the
    page's last-write LSN is advanced by one and no redo is applied. -/
theorem C1_redo_iff_page_older (r : logrec_t) (lsn endL : Nat) (p : Pid)
    (disk : BfKey → LoadRes) (spr : BfKey → Nat → Nat)
    (bp : List (BfKey × rcb)) (cb : rcb) (pl : Nat)
    (hfind : bfFind bp (bfKeyOf p) = some cb)
    (hflag : cb.in_doubt = true ∨ cb.dirty = true)
    (hlsn : 0 < lsn)
    (heff : effLastWrite r lsn p disk spr cb = some pl) :
    (∀ res, redoLogWithPid r lsn endL p disk spr bp = .ok res →
       (res.applied = true ↔ pl < lsn)) ∧
    (pl < lsn → ∃ res, redoLogWithPid r lsn endL p disk spr bp = .ok res ∧
       res.applied = true ∧ res.redone = true ∧
       (bfFind res.bp (bfKeyOf p)).map rcb.page_lsn = some lsn) ∧
    (lsn ≤ pl → endL ≤ pl →
       redoLogWithPid r lsn endL p disk spr bp = .error .walViolation) ∧
    (lsn ≤ pl → pl < endL →
       ∃ res, redoLogWithPid r lsn endL p disk spr bp = .ok res ∧
         res.applied = false ∧ res.redone = false ∧ res.dirtyDelta = 0 ∧
         (bfFind res.bp (bfKeyOf p)).map rcb.page_lsn = some (pl + 1)) := by
  have hid : (cb.in_doubt || cb.dirty) = true := by
    rcases hflag with h | h <;> simp [h]
  unfold redoLogWithPid
  rw [hfind]
  simp only [hid, if_true, heff]
  by_cases hlt : pl < lsn
  · rw [if_pos hlt]
    refine ⟨fun res hres => ?_, fun _ => ?_, fun hge => absurd hlt (not_lt.mpr hge),
            fun hge => absurd hlt (not_lt.mpr hge)⟩
    · cases hres
      simpa using hlt
    · refine ⟨_, rfl, rfl, rfl, ?_⟩
      have := bfFind_bfSet_self (bfKeyOf p)
        (if cb.in_doubt = true then
          { cb with page_lsn := lsn,
                    rec_lsn := if (cb.in_doubt || virginFor r p) &&
                                  decide (lsn < cb.rec_lsn) then lsn
                               else cb.rec_lsn,
                    in_doubt := false, dirty := true }
         else
          { cb with page_lsn := lsn,
                    rec_lsn := if (cb.in_doubt || virginFor r p) &&
                                  decide (lsn < cb.rec_lsn) then lsn
                               else cb.rec_lsn }) bp cb hfind
      by_cases hd : cb.in_doubt = true <;> simp only [hd, if_true,
        Bool.false_eq_true, if_false] at this ⊢ <;> rw [this] <;> rfl
  · rw [if_neg hlt]
    have hple : lsn ≤ pl := not_lt.mp hlt
    have hv : virginFor r p = false := by
      by_cases h : virginFor r p = true
      · rw [effLastWrite_virgin r lsn p disk spr cb h] at heff
        cases heff
        omega
      · simp_all
    rw [hv]
    simp only [Bool.false_eq_true, if_false]
    have hpl0 : (pl == 0) = false := by
      have : pl ≠ 0 := by omega
      simpa using this
    rw [hpl0]
    simp only [Bool.not_false, Bool.and_true]
    by_cases hwal : endL ≤ pl
    · have hw : (decide (endL ≤ pl)) = true := by simpa using hwal
      rw [hw]
      simp only [if_true]
      refine ⟨fun res hres => ?_, fun h => absurd h hlt,
              fun _ _ => trivial, fun _ hlt2 => absurd hwal (not_le.mpr hlt2)⟩
      cases hres
    · have hw : (decide (endL ≤ pl)) = false := by simpa using hwal
      rw [hw]
      simp only [Bool.false_eq_true, if_false, hpl0]
      refine ⟨fun res hres => ?_, fun h => absurd h hlt,
              fun _ hge => absurd hge hwal, fun _ _ => ?_⟩
      · cases hres
        simpa using hlt
      · refine ⟨_, rfl, rfl, rfl, rfl, ?_⟩
        have := bfFind_bfSet_self (bfKeyOf p) { cb with page_lsn := pl + 1 }
          bp cb hfind
        rw [this]
        rfl

/-- C1 witness. -/
theorem C1_redo_iff_page_older_witness :
    bfFind sampleBp (bfKeyOf ⟨1, 0, 42⟩) = some sampleCb ∧
    (sampleCb.in_doubt = true ∨ sampleCb.dirty = true) ∧ (0 : Nat) < 5 ∧
    effLastWrite sampleRedoRec 5 ⟨1, 0, 42⟩ sampleDisk sampleSpr sampleCb =
      some 3 ∧
    ((∀ res, redoLogWithPid sampleRedoRec 5 10 ⟨1, 0, 42⟩ sampleDisk sampleSpr
          sampleBp = .ok res → (res.applied = true ↔ 3 < 5)) ∧
     (3 < 5 → ∃ res, redoLogWithPid sampleRedoRec 5 10 ⟨1, 0, 42⟩ sampleDisk
          sampleSpr sampleBp = .ok res ∧ res.applied = true ∧ res.redone = true ∧
        (bfFind res.bp (bfKeyOf ⟨1, 0, 42⟩)).map rcb.page_lsn = some 5) ∧
     (5 ≤ 3 → 10 ≤ 3 →
        redoLogWithPid sampleRedoRec 5 10 ⟨1, 0, 42⟩ sampleDisk sampleSpr
          sampleBp = .error .walViolation) ∧
     (5 ≤ 3 → 3 < 10 →
        ∃ res, redoLogWithPid sampleRedoRec 5 10 ⟨1, 0, 42⟩ sampleDisk sampleSpr
            sampleBp = .ok res ∧ res.applied = false ∧ res.redone = false ∧
          res.dirtyDelta = 0 ∧
          (bfFind res.bp (bfKeyOf ⟨1, 0, 42⟩)).map rcb.page_lsn = some (3 + 1))) :=
  ⟨by decide, Or.inl rfl, by decide, by decide,
   C1_redo_iff_page_older sampleRedoRec 5 10 ⟨1, 0, 42⟩ sampleDisk sampleSpr
     sampleBp sampleCb 3 (by decide) (Or.inl rfl) (by decide) (by decide)⟩

/-- C3: During the Analysis forward scan, only the master checkpoint's
    records are consumed: once one chkpt-end record has been handled
    (`num_chkpt_end_handled > 0`), later chkpt-buffer-table,
    chkpt-transaction-table, chkpt-device-table and chkpt-end records
    leave the Analysis state unchanged (apart from the generic `last_lsn`
    bookkeeping and, for chkpt-end, the counter increment); and the first
    chkpt-end record's `begin_chkpt` field must equal the master LSN —
    otherwise a fatal error is raised — in which case its
    `(min_rec_lsn, min_xct_lsn)` are adopted as `redo_lsn`/`undo_lsn`. -/
theorem C3_later_checkpoints_ignored (maxLsn master : Nat) (st : AState)
    (lsn : Nat) (r : logrec_t) (htid : r.tid = 0)
    (hssx : r.is_single_sys_xct = false) (hck : lsn = r.lsn_ck) :
    (0 < st.num_chkpt_end_handled →
      ((r.rtype = .chkpt_bf_tab ∨ r.rtype = .chkpt_xct_tab ∨
        r.rtype = .chkpt_dev_tab) →
        analysisStep maxLsn master st lsn r = .ok { st with last_lsn := lsn }) ∧
      (r.rtype = .chkpt_end →
        analysisStep maxLsn master st lsn r =
          .ok { st with last_lsn := lsn,
                        num_chkpt_end_handled := st.num_chkpt_end_handled + 1 })) ∧
    (st.num_chkpt_end_handled = 0 → r.rtype = .chkpt_end →
      (r.end_base ≠ master →
        analysisStep maxLsn master st lsn r = .error .masterMismatch) ∧
      (r.end_base = master →
        analysisStep maxLsn master st lsn r =
          .ok { st with last_lsn := lsn, begin_chkpt := r.end_base,
                        redo_lsn := r.end_min_rec, undo_lsn := r.end_min_xct,
                        num_chkpt_end_handled := st.num_chkpt_end_handled + 1 })) := by
  have hh0 : ∀ m, 0 < m → (m == 0) = false := by
    intro m hm
    simpa using Nat.pos_iff_ne_zero.mp hm
  refine ⟨fun hpos => ⟨fun hty3 => ?_, fun hty => ?_⟩,
          fun h0 hty => ⟨fun hne => ?_, fun heq => ?_⟩⟩
  · rcases hty3 with hty | hty | hty <;>
      simp [analysisStep, stepSwitch, hck, htid, hssx, hty, hh0 _ hpos]
  · simp [analysisStep, stepSwitch, hck, htid, hssx, hty, hh0 _ hpos]
  · have hnb : (master == r.end_base) = false := by
      simpa using fun h => hne h.symm
    simp [analysisStep, stepSwitch, hck, htid, hssx, hty, h0, hnb]
  · have hb : (master == r.end_base) = true := by simpa using heq.symm
    simp [analysisStep, stepSwitch, hck, htid, hssx, hty, h0, hb]

/-- C3 witness. -/
theorem C3_later_checkpoints_ignored_witness :
    (sampleChkEndRec.tid = 0 ∧ sampleChkEndRec.is_single_sys_xct = false ∧
     (4 : Nat) = sampleChkEndRec.lsn_ck ∧
     0 < sampleAState.num_chkpt_end_handled ∧
     sampleChkEndRec.rtype = Rectype.chkpt_end) ∧
    analysisStep 9 2 sampleAState 4 sampleChkEndRec =
      .ok ({ sampleAState with
              last_lsn := 4,
              num_chkpt_end_handled := sampleAState.num_chkpt_end_handled + 1 }) :=
  ⟨⟨rfl, rfl, rfl, by decide, rfl⟩,
   ((C3_later_checkpoints_ignored 9 2 sampleAState 4 sampleChkEndRec rfl rfl
       rfl).1 (by decide)).2 rfl⟩

/-- Transaction lookup finds a matching head. -/
theorem xctLookup_cons_pos (x : xct_t) (tbl : List xct_t) (t : Nat)
    (h : (x.tid == t) = true) : xctLookup (x :: tbl) t = some x := by
  unfold xctLookup
  simp [List.find?, h]

/-- Transaction lookup skips a non-matching head. -/
theorem xctLookup_cons_neg (x : xct_t) (tbl : List xct_t) (t : Nat)
    (h : (x.tid == t) = false) : xctLookup (x :: tbl) t = xctLookup tbl t := by
  unfold xctLookup
  simp [List.find?, h]

/-- Pointer-style update unfolds over a cons cell. -/
theorem xctUpdate_cons (x : xct_t) (tbl : List xct_t) (t : Nat)
    (f : xct_t → xct_t) :
    xctUpdate (x :: tbl) t f =
      (if (x.tid == t) = true then f x else x) :: xctUpdate tbl t f := rfl

/-- Lookup after a pointer-style update that preserves tids. -/
theorem xctLookup_xctUpdate (t : Nat) (f : xct_t → xct_t)
    (hf : ∀ x, (f x).tid = x.tid) :
    ∀ tbl : List xct_t,
      xctLookup (xctUpdate tbl t f) t = (xctLookup tbl t).map f
  | [] => rfl
  | x :: rest => by
      rw [xctUpdate_cons]
      by_cases hx : (x.tid == t) = true
      · rw [if_pos hx, xctLookup_cons_pos _ _ _ (by rw [hf x]; exact hx),
          xctLookup_cons_pos _ _ _ hx]
        rfl
      · have hx' : (x.tid == t) = false := by simpa using hx
        rw [if_neg (by simp [hx']), xctLookup_cons_neg _ _ _ hx',
          xctLookup_cons_neg _ _ _ hx']
        exact xctLookup_xctUpdate t f hf rest

/-- Analysis buffer-pool lookup finds a matching head. -/
theorem abfFind_cons_pos (e : BfKey × acb) (rest : List (BfKey × acb))
    (k : BfKey) (he : (e.1 == k) = true) : abfFind (e :: rest) k = some e.2 := by
  unfold abfFind
  simp [List.find?, he]

/-- Analysis buffer-pool lookup skips a non-matching head. -/
theorem abfFind_cons_neg (e : BfKey × acb) (rest : List (BfKey × acb))
    (k : BfKey) (he : (e.1 == k) = false) :
    abfFind (e :: rest) k = abfFind rest k := by
  unfold abfFind
  simp [List.find?, he]

/-- Writing an Analysis control block back under a present key makes the
    lookup return it. -/
theorem abfFind_abfSet_self (k : BfKey) (cb' : acb) :
    ∀ (bp : List (BfKey × acb)) (cb : acb),
      abfFind bp k = some cb → abfFind (abfSet bp k cb') k = some cb'
  | [], cb, h => by simp [abfFind] at h
  | e :: rest, cb, h => by
      by_cases he : (e.1 == k) = true
      · have hset : abfSet (e :: rest) k cb' = (e.1, cb') :: abfSet rest k cb' := by
          simp only [abfSet, List.map_cons]
          rw [if_pos he]
        rw [hset, abfFind_cons_pos (e.1, cb') _ k he]
      · have he' : (e.1 == k) = false := by simpa using he
        have h1 : abfFind rest k = some cb := by
          rwa [abfFind_cons_neg e rest k he'] at h
        have hset : abfSet (e :: rest) k cb' = e :: abfSet rest k cb' := by
          simp only [abfSet, List.map_cons]
          rw [if_neg (by simp [he'])]
        rw [hset, abfFind_cons_neg e _ k he']
        exact abfFind_abfSet_self k cb' rest cb h1

/-- After `register_and_mark`, the page is present and in-doubt. -/
theorem registerAndMark_in_doubt (bp : List (BfKey × acb)) (p : Pid)
    (l c : Nat) :
    ∃ cb, abfFind (registerAndMark bp p l c).1 (bfKeyOf p) = some cb ∧
      cb.in_doubt = true := by
  cases hf : abfFind bp (bfKeyOf p) with
  | none =>
      refine ⟨⟨true, true, l⟩, ?_, rfl⟩
      unfold registerAndMark
      simp only [hf]
      exact abfFind_cons_pos (bfKeyOf p, ⟨true, true, l⟩) bp (bfKeyOf p)
        (by simp)
  | some cb0 =>
      by_cases hd : cb0.in_doubt = true
      · refine ⟨{ cb0 with rec_lsn := min cb0.rec_lsn l }, ?_, by simpa using hd⟩
        unfold registerAndMark
        simp only [hf]
        rw [if_pos hd]
        exact abfFind_abfSet_self (bfKeyOf p) _ bp cb0 hf
      · refine ⟨{ cb0 with in_doubt := true, used := true, rec_lsn := l }, ?_,
          rfl⟩
        unfold registerAndMark
        simp only [hf]
        rw [if_neg hd]
        exact abfFind_abfSet_self (bfKeyOf p) _ bp cb0 hf

/-- C7: During Analysis, a compensation (CLR) record that is not undoable
    sets the owning transaction's `undo_next` to NULL and, if the record
    has `is_redo` set, registers its page as in-doubt; encountering a
    compensation record that is itself undoable raises a fatal error
    (compensation records are never undone). -/
theorem C7_compensation_redo_only (maxLsn master : Nat) (st : AState)
    (lsn : Nat) (r : logrec_t)
    (hty : r.rtype = .compensate) (hcp : r.is_cpsn = true)
    (hpu : r.is_page_update = false) (hssx : r.is_single_sys_xct = false)
    (htid : r.tid ≠ 0) (hck : lsn = r.lsn_ck) :
    (r.is_undo = true →
      analysisStep maxLsn master st lsn r = .error .undoableCompensation) ∧
    (r.is_undo = false → r.pid.page ≠ 0 →
      ∃ st', analysisStep maxLsn master st lsn r = .ok st' ∧
        (xctLookup st'.xcts r.tid).map xct_t.undo_nxt = some 0 ∧
        (r.is_redo = true →
          ∃ cb, abfFind st'.bp (bfKeyOf r.pid) = some cb ∧
            cb.in_doubt = true)) := by
  subst hck
  have htidb : (r.tid == 0) = false := by simpa using htid
  have hgtid : ∀ z : xct_t,
      ((fun x => if r.lsn_ck < x.first_lsn then { x with first_lsn := r.lsn_ck }
                 else x) z).tid = z.tid := by
    intro z
    by_cases h : r.lsn_ck < z.first_lsn <;> simp [h]
  have hgundo : ∀ z : xct_t,
      ((fun x => if r.lsn_ck < x.first_lsn then { x with first_lsn := r.lsn_ck }
                 else x) z).undo_nxt = z.undo_nxt := by
    intro z
    by_cases h : r.lsn_ck < z.first_lsn <;> simp [h]
  constructor
  · intro hU
    cases hlook : xctLookup st.xcts r.tid with
    | some y =>
        simp [analysisStep, stepSwitch, stepUpdate, stepCpsn, hssx, htidb,
          hlook, hty, hpu, hcp, hU]
    | none =>
        simp [analysisStep, stepSwitch, stepUpdate, stepCpsn, hssx, htidb,
          hlook, hty, hpu, hcp, hU]
  · intro hU hpg
    have hpgb : (r.pid.page == 0) = false := by simpa using hpg
    cases hlook : xctLookup st.xcts r.tid with
    | some y =>
        cases hR : r.is_redo with
        | true =>
            refine ⟨_, (by simp [analysisStep, stepSwitch, stepUpdate, stepCpsn,
              hssx, htidb, hlook, hty, hpu, hcp, hU, hR, hpgb]; rfl), ?_, ?_⟩
            · rw [xctLookup_xctUpdate _ _ hgtid,
                xctLookup_xctUpdate r.tid
                  (fun x => { x with undo_nxt := 0 }) (fun z => rfl),
                xctLookup_xctUpdate r.tid
                  (fun x => { x with last_lsn := r.lsn_ck }) (fun z => rfl),
                hlook]
              simp only [Option.map_some']
              split <;> rfl
            · intro _
              exact registerAndMark_in_doubt st.bp r.pid r.lsn_ck
                st.in_doubt_count
        | false =>
            refine ⟨_, (by simp [analysisStep, stepSwitch, stepUpdate, stepCpsn,
              hssx, htidb, hlook, hty, hpu, hcp, hU, hR, hpgb]; rfl), ?_, ?_⟩
            · rw [xctLookup_xctUpdate _ _ hgtid,
                xctLookup_xctUpdate r.tid
                  (fun x => { x with undo_nxt := 0 }) (fun z => rfl),
                xctLookup_xctUpdate r.tid
                  (fun x => { x with last_lsn := r.lsn_ck }) (fun z => rfl),
                hlook]
              simp only [Option.map_some']
              split <;> rfl
            · intro hcontra
              exact absurd hcontra (by simp [hR])
    | none =>
        cases hR : r.is_redo with
        | true =>
            refine ⟨_, (by simp [analysisStep, stepSwitch, stepUpdate, stepCpsn,
              hssx, htidb, hlook, hty, hpu, hcp, hU, hR, hpgb]; rfl), ?_, ?_⟩
            · rw [xctLookup_xctUpdate _ _ hgtid,
                xctLookup_xctUpdate r.tid
                  (fun x => { x with undo_nxt := 0 }) (fun z => rfl),
                xctLookup_cons_pos _ _ _ (by simp)]
              simp only [Option.map_some']
              split <;> rfl
            · intro _
              exact registerAndMark_in_doubt st.bp r.pid r.lsn_ck
                st.in_doubt_count
        | false =>
            refine ⟨_, (by simp [analysisStep, stepSwitch, stepUpdate, stepCpsn,
              hssx, htidb, hlook, hty, hpu, hcp, hU, hR, hpgb]; rfl), ?_, ?_⟩
            · rw [xctLookup_xctUpdate _ _ hgtid,
                xctLookup_xctUpdate r.tid
                  (fun x => { x with undo_nxt := 0 }) (fun z => rfl),
                xctLookup_cons_pos _ _ _ (by simp)]
              simp only [Option.map_some']
              split <;> rfl
            · intro hcontra
              exact absurd hcontra (by simp [hR])

/-- C7 witness. -/
theorem C7_compensation_redo_only_witness :
    (sampleCpsnRec.rtype = Rectype.compensate ∧ sampleCpsnRec.is_cpsn = true ∧
     sampleCpsnRec.is_page_update = false ∧
     sampleCpsnRec.is_single_sys_xct = false ∧ sampleCpsnRec.tid ≠ 0 ∧
     (6 : Nat) = sampleCpsnRec.lsn_ck ∧ sampleCpsnRec.is_undo = false ∧
     sampleCpsnRec.pid.page ≠ 0) ∧
    (∃ st', analysisStep 9 2 sampleAState 6 sampleCpsnRec = .ok st' ∧
       (xctLookup st'.xcts sampleCpsnRec.tid).map xct_t.undo_nxt = some 0 ∧
       (sampleCpsnRec.is_redo = true →
         ∃ cb, abfFind st'.bp (bfKeyOf sampleCpsnRec.pid) = some cb ∧
           cb.in_doubt = true)) :=
  ⟨⟨rfl, rfl, rfl, rfl, by decide, rfl, rfl, by decide⟩,
   (C7_compensation_redo_only 9 2 sampleAState 6 sampleCpsnRec rfl rfl rfl rfl
      (by decide) rfl).2 rfl (by decide)⟩

/-- The head of a non-empty `dropWhile` result fails the predicate. -/
theorem dropWhile_head_not (p : Nat → Bool) :
    ∀ (l : List Nat) (a : Nat) (l' : List Nat),
      l.dropWhile p = a :: l' → p a = false
  | [], a, l', h => by simp [List.dropWhile] at h
  | b :: bs, a, l', h => by
      by_cases hb : p b = true
      · rw [List.dropWhile_cons_of_pos hb] at h
        exact dropWhile_head_not p bs a l' h
      · have hb' : p b = false := by simpa using hb
        rw [List.dropWhile_cons_of_neg (by simp [hb'])] at h
        cases h
        exact hb'

/-- `dropWhile` keeps only original elements. -/
theorem dropWhile_mem (p : Nat → Bool) :
    ∀ (l : List Nat) (e : Nat), e ∈ l.dropWhile p → e ∈ l
  | [], e, h => by simpa [List.dropWhile] using h
  | b :: bs, e, h => by
      by_cases hb : p b = true
      · rw [List.dropWhile_cons_of_pos hb] at h
        exact List.mem_cons_of_mem b (dropWhile_mem p bs e h)
      · rw [List.dropWhile_cons_of_neg (by simpa using hb)] at h
        exact h

/-- `heapInsert` is a permutation of consing. -/
theorem heapInsert_perm (x : UndoXct) :
    ∀ l : List UndoXct, List.Perm (heapInsert x l) (x :: l)
  | [] => List.Perm.refl _
  | y :: ys => by
      unfold heapInsert
      by_cases h : y.undoNxt ≤ x.undoNxt
      · rw [if_pos h]
      · rw [if_neg h]
        exact ((heapInsert_perm x ys).cons y).trans (List.Perm.swap x y ys)

/-- `heapInsert` preserves the descending-key heap invariant. -/
theorem heapSorted_heapInsert (x : UndoXct) :
    ∀ l : List UndoXct, heapSorted l → heapSorted (heapInsert x l)
  | [], _ => by simp [heapInsert, heapSorted]
  | y :: ys, hs => by
      rcases hs with _ | ⟨hy, hys⟩
      unfold heapInsert
      by_cases h : y.undoNxt ≤ x.undoNxt
      · rw [if_pos h]
        refine List.Pairwise.cons ?_ (List.Pairwise.cons hy hys)
        intro b hb
        rcases List.mem_cons.mp hb with rfl | hb2
        · exact h
        · exact le_trans (hy b hb2) h
      · rw [if_neg h]
        refine List.Pairwise.cons ?_ (heapSorted_heapInsert x ys hys)
        intro b hb
        have hb' : b ∈ x :: ys := (heapInsert_perm x ys).mem_iff.mp hb
        rcases List.mem_cons.mp hb' with rfl | hb2
        · exact le_of_lt (not_le.mp h)
        · exact hy b hb2

/-- `heapify` permutes its input. -/
theorem heapify_perm :
    ∀ l : List UndoXct, List.Perm (heapify l) l
  | [] => List.Perm.refl _
  | x :: xs => by
      unfold heapify
      exact (heapInsert_perm x (heapify xs)).trans ((heapify_perm xs).cons x)

/-- `heapify` establishes the heap invariant. -/
theorem heapSorted_heapify : ∀ l : List UndoXct, heapSorted (heapify l)
  | [] => List.Pairwise.nil
  | x :: xs => heapSorted_heapInsert x (heapify xs) (heapSorted_heapify xs)

/-- The core rollback fact: rolling the heap top back to the second
    element's `undo_next_lsn` strictly lowers the top's `undo_next_lsn`,
    to a value below the floor or to NULL, and only shortens its chain. -/
theorem rollback_decreases (top : UndoXct) (floor : Nat)
    (hch : strictChain top.chain) (hne : top.undoNxt ≠ 0)
    (hfl : floor ≤ top.undoNxt) (hnotin : floor = 0 ∨ floor ∉ top.chain) :
    (rollbackTo top floor).undoNxt < top.undoNxt ∧
    ((rollbackTo top floor).undoNxt < floor ∨ (rollbackTo top floor).undoNxt = 0) ∧
    (∀ e ∈ (rollbackTo top floor).chain, e ∈ top.chain) := by
  rcases hch with ⟨hpw, hpos⟩
  have hmem : ∀ e ∈ (rollbackTo top floor).chain, e ∈ top.chain := by
    intro e he
    exact dropWhile_mem _ top.chain e he
  refine ⟨?_, ?_, hmem⟩ <;>
  · cases hc : top.chain with
    | nil =>
        exact absurd (by simp [UndoXct.undoNxt, hc]) hne
    | cons c cs =>
        rw [hc] at hpw hpos
        have hcpos : 0 < c := hpos c (List.mem_cons_self c cs)
        have htop : top.undoNxt = c := by simp [UndoXct.undoNxt, hc]
        by_cases hfc : floor < c
        · have hd : (rollbackTo top floor).chain =
              cs.dropWhile (fun l => decide (floor < l)) := by
            unfold rollbackTo
            simp only [hc]
            rw [List.dropWhile_cons_of_pos (by simpa using hfc)]
          cases hres : (rollbackTo top floor).chain with
          | nil =>
              have h0 : (rollbackTo top floor).undoNxt = 0 := by
                simp [UndoXct.undoNxt, hres]
              first
                | (rw [h0, htop]; exact hcpos)
                | exact Or.inr h0
          | cons d ds =>
              have hdn : (rollbackTo top floor).undoNxt = d := by
                simp [UndoXct.undoNxt, hres]
              have hdc : d ∈ cs := by
                have hmm : d ∈ cs.dropWhile (fun l => decide (floor < l)) := by
                  rw [← hd, hres]
                  exact List.mem_cons_self d ds
                exact dropWhile_mem _ cs d hmm
              have hdlt : d < c := by
                rcases hpw with _ | ⟨hhd, htail⟩
                exact hhd d hdc
              have hdle : ¬ (floor < d) := by
                have hx := dropWhile_head_not (fun l => decide (floor < l))
                  cs d ds (by rw [← hd, hres])
                simpa using hx
              have hdpos : 0 < d := hpos d (List.mem_cons_of_mem c hdc)
              have hdnefl : d ≠ floor := by
                rcases hnotin with h0 | hni
                · omega
                · intro hEq
                  rw [hEq] at hdc
                  exact hni (by rw [hc]; exact List.mem_cons_of_mem c hdc)
              first
                | (rw [hdn, htop]; exact hdlt)
                | exact Or.inl (by rw [hdn]; omega)
        · rw [htop] at hfl
          have hceq : c = floor := by omega
          rcases hnotin with h0 | hni
          · omega
          · exact absurd (by rw [← hceq, hc]; exact List.mem_cons_self c cs) hni

/-- `sumUndo` is invariant under permutation. -/
theorem sumUndo_perm (l1 l2 : List UndoXct) (h : List.Perm l1 l2) :
    sumUndo l1 = sumUndo l2 :=
  List.Perm.sum_eq (h.map UndoXct.undoNxt)

/-- Chain disjointness is a symmetric relation. -/
theorem disjointChains_symm_rel :
    Symmetric (fun a b : UndoXct => ∀ e ∈ a.chain, e ∉ b.chain) := by
  intro a b hab e heb hea
  exact hab e hea heb

/-- Chain disjointness transfers along permutations. -/
theorem disjointChains_perm (l1 l2 : List UndoXct) (hp : List.Perm l1 l2)
    (h : disjointChains l1) : disjointChains l2 := by
  refine (List.Perm.pairwise_iff ?_ hp).mp h
  intro a b hab e heb hea
  exact hab e hea heb

/-- Unfolding equation for `undoStep` on a heap with at least two elements. -/
theorem undoStep_cons (top second : UndoXct) (rest : List UndoXct) :
    undoStep (top :: second :: rest) =
      if top.sys_xct then heapInsert { top with chain := [] } (second :: rest)
      else heapInsert (rollbackTo top second.undoNxt) (second :: rest) := rfl

/-- `dropWhile` preserves a strictly-decreasing chain. -/
theorem dropWhile_pairwise (p : Nat → Bool) :
    ∀ l : List Nat, List.Pairwise (fun a b => b < a) l →
      List.Pairwise (fun a b => b < a) (l.dropWhile p)
  | [], h => by simpa [List.dropWhile] using h
  | b :: bs, h => by
      by_cases hb : p b = true
      · rw [List.dropWhile_cons_of_pos hb]
        exact dropWhile_pairwise p bs h.of_cons
      · rw [List.dropWhile_cons_of_neg (by simpa using hb)]
        exact h

/-- One iteration of the reverse-undo loop: the top transaction's
    `undo_next_lsn` strictly drops (so the key sum strictly drops) and the
    heap invariants (ordering, strict positive chains, disjointness,
    membership of the same transactions) are preserved. -/
theorem undoStep_spec (top second : UndoXct) (rest : List UndoXct)
    (hs : heapSorted (top :: second :: rest))
    (hch : ∀ x ∈ top :: second :: rest, strictChain x.chain)
    (hdj : disjointChains (top :: second :: rest))
    (hne : top.undoNxt ≠ 0) :
    sumUndo (undoStep (top :: second :: rest)) <
      sumUndo (top :: second :: rest) ∧
    heapSorted (undoStep (top :: second :: rest)) ∧
    (∀ x ∈ undoStep (top :: second :: rest), strictChain x.chain) ∧
    disjointChains (undoStep (top :: second :: rest)) ∧
    List.Perm ((undoStep (top :: second :: rest)).map UndoXct.tid)
      ((top :: second :: rest).map UndoXct.tid) ∧
    (undoStep (top :: second :: rest)).length =
      (top :: second :: rest).length := by
  rcases hs with _ | ⟨hstop, hstail⟩
  rcases hdj with _ | ⟨hdtop, hdtail⟩
  have hfl : second.undoNxt ≤ top.undoNxt :=
    hstop second (List.mem_cons_self second rest)
  have hnotin : second.undoNxt = 0 ∨ second.undoNxt ∉ top.chain := by
    cases hsc : second.chain with
    | nil => exact Or.inl (by simp [UndoXct.undoNxt, hsc])
    | cons c cs =>
        refine Or.inr (fun hmem => ?_)
        have hflin : second.undoNxt ∈ second.chain := by
          rw [hsc]
          simp [UndoXct.undoNxt, hsc]
        exact hdtop second (List.mem_cons_self second rest)
          second.undoNxt hmem hflin
  -- the replaced top element
  have key : ∀ top' : UndoXct, top'.tid = top.tid →
      (∀ e ∈ top'.chain, e ∈ top.chain) →
      strictChain top'.chain →
      top'.undoNxt < top.undoNxt →
      undoStep (top :: second :: rest) = heapInsert top' (second :: rest) →
      sumUndo (undoStep (top :: second :: rest)) <
        sumUndo (top :: second :: rest) ∧
      heapSorted (undoStep (top :: second :: rest)) ∧
      (∀ x ∈ undoStep (top :: second :: rest), strictChain x.chain) ∧
      disjointChains (undoStep (top :: second :: rest)) ∧
      List.Perm ((undoStep (top :: second :: rest)).map UndoXct.tid)
        ((top :: second :: rest).map UndoXct.tid) ∧
      (undoStep (top :: second :: rest)).length =
        (top :: second :: rest).length := by
    intro top' htid hsub hchain hlt heq
    have hperm : List.Perm (heapInsert top' (second :: rest))
        (top' :: second :: rest) := heapInsert_perm top' (second :: rest)
    rw [heq]
    refine ⟨?_, ?_, ?_, ?_, ?_, ?_⟩
    · rw [sumUndo_perm _ _ hperm]
      simp only [sumUndo, List.map_cons, List.sum_cons]
      omega
    · exact heapSorted_heapInsert top' (second :: rest) hstail
    · intro x hx
      rcases List.mem_cons.mp (hperm.mem_iff.mp hx) with rfl | hx2
      · exact hchain
      · exact hch x (List.mem_cons_of_mem top hx2)
    · refine disjointChains_perm (top' :: second :: rest) _ hperm.symm ?_
      refine List.Pairwise.cons ?_ hdtail
      intro b hb e he
      exact hdtop b hb e (hsub e he)
    · refine (hperm.map UndoXct.tid).trans ?_
      simp only [List.map_cons, htid]
      exact List.Perm.refl _
    · rw [hperm.length_eq]
      rfl
  by_cases hsys : top.sys_xct = true
  · have hchain0 : strictChain ([] : List Nat) :=
      ⟨List.Pairwise.nil, by intro e he; cases he⟩
    refine key { top with chain := [] } rfl (by intro e he; cases he) hchain0
      ?_ ?_
    · have h0 : ({ top with chain := [] } : UndoXct).undoNxt = 0 := rfl
      rw [h0]
      exact Nat.pos_of_ne_zero hne
    · rw [undoStep_cons, if_pos hsys]
  · have hrb := rollback_decreases top second.undoNxt
      (hch top (List.mem_cons_self top (second :: rest))) hne hfl hnotin
    have hchain' : strictChain (rollbackTo top second.undoNxt).chain := by
      rcases hch top (List.mem_cons_self top (second :: rest)) with ⟨hpw, hpos⟩
      refine ⟨?_, ?_⟩
      · unfold rollbackTo
        exact dropWhile_pairwise _ top.chain hpw
      · intro e he
        exact hpos e (hrb.2.2 e he)
    refine key (rollbackTo top second.undoNxt) rfl hrb.2.2 hchain' hrb.1 ?_
    rw [undoStep_cons, if_neg hsys]

/-- Unfolding equation for `undoLoop` on a non-empty heap with fuel left. -/
theorem undoLoop_cons (fuel : Nat) (top : UndoXct) (rest : List UndoXct) :
    undoLoop (fuel + 1) (top :: rest) =
      if top.undoNxt == 0 then some (top :: rest)
      else undoLoop fuel (undoStep (top :: rest)) := rfl

/-- With enough fuel (more than the sum of the heap's `undoNxt` keys) the
    inner rollback loop terminates, returning a heap holding the same
    transactions. -/
theorem undoLoop_drains : ∀ (fuel : Nat) (h : List UndoXct),
    sumUndo h < fuel → heapSorted h → (∀ x ∈ h, strictChain x.chain) →
    disjointChains h → 2 ≤ h.length →
    ∃ h2, undoLoop fuel h = some h2 ∧
      List.Perm (h2.map UndoXct.tid) (h.map UndoXct.tid) ∧
      h2.length = h.length
  | 0, h, hf, _, _, _, _ => absurd hf (by omega)
  | fuel + 1, [], _, _, _, _, hlen => by simp at hlen
  | fuel + 1, [x], _, _, _, _, hlen => by simp at hlen
  | fuel + 1, top :: second :: rest, hf, hs, hch, hdj, hlen => by
      by_cases h0 : (top.undoNxt == 0) = true
      · refine ⟨top :: second :: rest, ?_, List.Perm.refl _, rfl⟩
        rw [undoLoop_cons, if_pos h0]
      · have hne : top.undoNxt ≠ 0 := by simpa using h0
        obtain ⟨hsum, hs2, hch2, hdj2, hperm, hlen2⟩ :=
          undoStep_spec top second rest hs hch hdj hne
        have hf2 : sumUndo (undoStep (top :: second :: rest)) < fuel := by
          omega
        have hlen3 : 2 ≤ (undoStep (top :: second :: rest)).length := by
          rw [hlen2]
          exact hlen
        obtain ⟨h2, heq, hperm2, hlen4⟩ :=
          undoLoop_drains fuel (undoStep (top :: second :: rest)) hf2 hs2
            hch2 hdj2 hlen3
        refine ⟨h2, ?_, hperm2.trans hperm, by rw [hlen4, hlen2]⟩
        rw [undoLoop_cons, if_neg h0]
        exact heq

/-- C6: in reverse-chronological (heap-driven) Undo, while the heap holds at
    least two transactions and the top's undo_next_lsn is not NULL, the top
    transaction is rolled back to the second transaction's undo_next_lsn, so
    each rollback step strictly decreases the top transaction's
    undo_next_lsn — to a value below the previous floor or to NULL — until
    the heap drains; afterwards every remaining transaction is aborted and
    removed in heap order and the log is forced (`flush_all`). Stated for
    heaps of transactions with strictly decreasing, positive, pairwise
    disjoint undo chains, and fuel exceeding the total of the undo keys. -/
theorem C6_reverse_undo_drains (l : List UndoXct) (fuel : Nat)
    (hne : l ≠ [])
    (hch : ∀ x ∈ l, strictChain x.chain)
    (hdj : disjointChains l)
    (hf : sumUndo l < fuel) :
    (∀ top second rest, heapSorted (top :: second :: rest) →
       (∀ x ∈ top :: second :: rest, strictChain x.chain) →
       disjointChains (top :: second :: rest) →
       top.undoNxt ≠ 0 → top.sys_xct = false →
       undoStep (top :: second :: rest) =
         heapInsert (rollbackTo top second.undoNxt) (second :: rest) ∧
       (rollbackTo top second.undoNxt).undoNxt < top.undoNxt ∧
       ((rollbackTo top second.undoNxt).undoNxt < second.undoNxt ∨
         (rollbackTo top second.undoNxt).undoNxt = 0)) ∧
    (∃ h2 : List UndoXct, undo_reverse_pass fuel (heapify l) =
       some ([], (h2.map (fun x => UEvent.abortXct x.tid)) ++
         [UEvent.flushAll]) ∧
       List.Perm (h2.map UndoXct.tid) (l.map UndoXct.tid)) := by
  constructor
  · intro top second rest hs hch2 hdj2 hne2 hsys
    rcases hs with _ | ⟨hstop, hstail⟩
    rcases hdj2 with _ | ⟨hdtop, hdtail⟩
    have hfl : second.undoNxt ≤ top.undoNxt :=
      hstop second (List.mem_cons_self second rest)
    have hnotin : second.undoNxt = 0 ∨ second.undoNxt ∉ top.chain := by
      cases hsc : second.chain with
      | nil => exact Or.inl (by simp [UndoXct.undoNxt, hsc])
      | cons c cs =>
          refine Or.inr (fun hmem => ?_)
          have hflin : second.undoNxt ∈ second.chain := by
            rw [hsc]
            simp [UndoXct.undoNxt, hsc]
          exact hdtop second (List.mem_cons_self second rest)
            second.undoNxt hmem hflin
    have hrb := rollback_decreases top second.undoNxt
      (hch2 top (List.mem_cons_self top (second :: rest))) hne2 hfl hnotin
    refine ⟨?_, hrb.1, hrb.2.1⟩
    rw [undoStep_cons, if_neg (by simp [hsys])]
  · have hperm : List.Perm (heapify l) l := heapify_perm l
    have hs : heapSorted (heapify l) := heapSorted_heapify l
    have hch2 : ∀ x ∈ heapify l, strictChain x.chain :=
      fun x hx => hch x (hperm.mem_iff.mp hx)
    have hdj2 : disjointChains (heapify l) :=
      disjointChains_perm l (heapify l) hperm.symm hdj
    have hlen0 : (heapify l).length ≠ 0 := by
      rw [hperm.length_eq]
      intro hcontra
      exact hne (List.length_eq_zero.mp hcontra)
    have hc : ((heapify l).length == 0) = false := by
      rw [beq_eq_false_iff_ne]
      exact hlen0
    have hstep : undo_reverse_pass fuel (heapify l) =
        match (if 1 < (heapify l).length then undoLoop fuel (heapify l)
               else some (heapify l)) with
        | none => none
        | some h =>
            some ([], (h.map (fun x => UEvent.abortXct x.tid)) ++
              [UEvent.flushAll]) := by
      unfold undo_reverse_pass
      rw [hc]
      simp
    by_cases h1 : 1 < (heapify l).length
    · rw [if_pos h1] at hstep
      have hfl2 : sumUndo (heapify l) < fuel := by
        rw [sumUndo_perm (heapify l) l hperm]
        exact hf
      obtain ⟨h2, heq, hperm2, hlen2⟩ :=
        undoLoop_drains fuel (heapify l) hfl2 hs hch2 hdj2 (by omega)
      refine ⟨h2, ?_, hperm2.trans (hperm.map UndoXct.tid)⟩
      rw [hstep, heq]
    · rw [if_neg h1] at hstep
      exact ⟨heapify l, hstep, hperm.map UndoXct.tid⟩

theorem C6_reverse_undo_drains_witness :
    sampleHeap ≠ [] ∧ (∀ x ∈ sampleHeap, strictChain x.chain) ∧
    disjointChains sampleHeap ∧ sumUndo sampleHeap < 20 ∧
    (∃ h2 : List UndoXct, undo_reverse_pass 20 (heapify sampleHeap) =
       some ([], (h2.map (fun x => UEvent.abortXct x.tid)) ++
         [UEvent.flushAll]) ∧
       List.Perm (h2.map UndoXct.tid) (sampleHeap.map UndoXct.tid)) := by
  have hch : ∀ x ∈ sampleHeap, strictChain x.chain := by
    intro x hx
    fin_cases hx <;> exact ⟨by decide, by decide⟩
  have hdj : disjointChains sampleHeap := by
    refine List.Pairwise.cons ?_ (List.Pairwise.cons ?_ List.Pairwise.nil) <;>
      decide
  exact ⟨by decide, hch, hdj, by decide,
    (C6_reverse_undo_drains sampleHeap 20 (by decide) hch hdj (by decide)).2⟩

/-- A left fold of `min` never exceeds its initial accumulator. -/
theorem foldlMin_le_init : ∀ (l : List Nat) (c : Nat), l.foldl min c ≤ c
  | [], _ => le_refl _
  | m :: ms, c =>
      le_trans (foldlMin_le_init ms (min c m)) (Nat.min_le_left c m)

/-- A left fold of `min` is a lower bound of the list. -/
theorem foldlMin_le_mem : ∀ (l : List Nat) (c m : Nat), m ∈ l →
    l.foldl min c ≤ m
  | m' :: ms, c, m, h => by
      rcases List.mem_cons.mp h with rfl | h2
      · exact le_trans (foldlMin_le_init ms (min c m)) (Nat.min_le_right c m)
      · exact foldlMin_le_mem ms (min c m') m h2

/-- A left fold of `min` is attained: it is the initial accumulator or a
    list element. -/
theorem foldlMin_attained : ∀ (l : List Nat) (c : Nat),
    l.foldl min c = c ∨ l.foldl min c ∈ l
  | [], _ => Or.inl rfl
  | m :: ms, c => by
      rcases foldlMin_attained ms (min c m) with h | h
      · rcases Nat.le_total c m with hcm | hmc
        · left
          rw [List.foldl_cons, h, Nat.min_eq_left hcm]
        · right
          rw [List.foldl_cons, h, Nat.min_eq_right hmc]
          exact List.mem_cons_self m ms
      · right
        exact List.mem_cons_of_mem m (by rw [List.foldl_cons]; exact h)

/-- Unfolding equation of the sweep for an active head entry. -/
theorem analysisSweep_cons_active (serial : Bool) (x : xct_t)
    (rest : List xct_t) (c : Nat) (ha : (x.state == XState.active) = true) :
    analysisSweep serial (x :: rest) c =
      match analysisSweep serial rest
          (if x.first_lsn < c then x.first_lsn else c) with
      | .error e => .error e
      | .ok (tbl, hp, c') =>
          .ok ({ x with first_lsn := 0 } :: tbl,
               (if serial then { x with first_lsn := 0 } :: hp else hp),
               c') := by
  conv_lhs => rw [analysisSweep]
  rw [if_pos ha]

/-- Characterization of a successful end-of-Analysis sweep: the final
    `commit_lsn` accumulator is the running minimum of the active entries'
    `first_lsn`s, the surviving table is exactly the active entries with
    `first_lsn` nulled, and the heap mirrors the table in serial mode. -/
theorem analysisSweep_ok (serial : Bool) : ∀ (l : List xct_t) (c : Nat)
    (tbl hp : List xct_t) (commit : Nat),
    analysisSweep serial l c = .ok (tbl, hp, commit) →
    commit = ((activeOf l).map xct_t.first_lsn).foldl min c ∧
    tbl = (activeOf l).map (fun x => { x with first_lsn := 0 }) ∧
    hp = (if serial then tbl else [])
  | [], c, tbl, hp, commit => by
      intro h
      simp only [analysisSweep, Except.ok.injEq, Prod.mk.injEq] at h
      obtain ⟨h1, h2, h3⟩ := h
      subst h1
      subst h2
      subst h3
      refine ⟨by simp [activeOf], by simp [activeOf], by cases serial <;> simp⟩
  | x :: rest, c, tbl, hp, commit => by
      intro h
      by_cases ha : (x.state == XState.active) = true
      · rw [analysisSweep_cons_active serial x rest c ha] at h
        cases hrec : analysisSweep serial rest
            (if x.first_lsn < c then x.first_lsn else c) with
        | error e =>
            rw [hrec] at h
            cases h
        | ok triple =>
            obtain ⟨tbl0, hp0, c0⟩ := triple
            rw [hrec] at h
            simp only [Except.ok.injEq, Prod.mk.injEq] at h
            obtain ⟨h1, h2, h3⟩ := h
            obtain ⟨hc, ht, hh⟩ := analysisSweep_ok serial rest
              (if x.first_lsn < c then x.first_lsn else c) tbl0 hp0 c0 hrec
            have hmin : (if x.first_lsn < c then x.first_lsn else c) =
                min c x.first_lsn := by
              rcases Nat.lt_or_ge x.first_lsn c with hlt | hge
              · rw [if_pos hlt, Nat.min_eq_right (Nat.le_of_lt hlt)]
              · rw [if_neg (Nat.not_lt.mpr hge), Nat.min_eq_left hge]
            have hact : activeOf (x :: rest) = x :: activeOf rest := by
              simp [activeOf, List.filter_cons, ha]
            subst h1
            subst h3
            refine ⟨?_, ?_, ?_⟩
            · rw [hact, List.map_cons, List.foldl_cons, ← hmin, hc]
            · rw [hact, List.map_cons, ht]
            · rw [← h2, hh, ht]
              cases serial <;> simp
      · by_cases he : (x.state == XState.ended) = true
        · have hstep : analysisSweep serial (x :: rest) c =
              analysisSweep serial rest c := by
            conv_lhs => rw [analysisSweep]
            rw [if_neg ha, if_pos he]
          rw [hstep] at h
          obtain ⟨hc, ht, hh⟩ := analysisSweep_ok serial rest c tbl hp commit h
          have ha2 : (x.state == XState.active) = false := by
            simpa using ha
          have hact : activeOf (x :: rest) = activeOf rest := by
            simp [activeOf, List.filter_cons, ha2]
          rw [hact]
          exact ⟨hc, ht, hh⟩
        · have hstep : analysisSweep serial (x :: rest) c =
              .error .sweepBadState := by
            conv_lhs => rw [analysisSweep]
            rw [if_neg ha, if_neg he]
          rw [hstep] at h
          cases h

/-- `endIfNotEnded` always leaves the transaction in the ended state. -/
theorem endIfNotEnded_state (x : xct_t) :
    (endIfNotEnded x).state = XState.ended := by
  unfold endIfNotEnded
  by_cases h : (x.state == XState.ended) = true
  · rw [if_pos h]
    exact beq_iff_eq.mp h
  · rw [if_neg h]

/-- A fully good table is good with any designated fresh tid. -/
theorem goodTableAt_of_good (m t : Nat) (l : List xct_t)
    (h : goodTable m l) : goodTableAt m t l :=
  fun x hx ha => Or.inl (h x hx ha)

/-- Membership in an updated table comes from the original entries. -/
theorem xctUpdate_mem (l : List xct_t) (u : Nat) (f : xct_t → xct_t)
    (x : xct_t) (hx : x ∈ xctUpdate l u f) :
    ∃ y ∈ l, x = (if (y.tid == u) = true then f y else y) := by
  unfold xctUpdate at hx
  obtain ⟨y, hy, hxy⟩ := List.mem_map.mp hx
  exact ⟨y, hy, hxy.symm⟩

/-- An update preserving state, `first_lsn` and tid keeps the mid-step
    invariant. -/
theorem goodTableAt_update_pres (m t u : Nat) (f : xct_t → xct_t)
    (l : List xct_t)
    (hf : ∀ y, (f y).state = y.state ∧ (f y).first_lsn = y.first_lsn ∧
      (f y).tid = y.tid)
    (h : goodTableAt m t l) : goodTableAt m t (xctUpdate l u f) := by
  intro x hx ha
  obtain ⟨y, hy, rfl⟩ := xctUpdate_mem l u f x hx
  by_cases hc : (y.tid == u) = true
  · rw [if_pos hc] at ha ⊢
    obtain ⟨hs, hfst, htid⟩ := hf y
    rw [hs] at ha
    rw [hfst, htid]
    exact h y hy ha
  · rw [if_neg hc] at ha ⊢
    exact h y hy ha

/-- An update preserving state and `first_lsn` keeps the table invariant. -/
theorem goodTable_update_pres (m u : Nat) (f : xct_t → xct_t)
    (l : List xct_t)
    (hf : ∀ y, (f y).state = y.state ∧ (f y).first_lsn = y.first_lsn)
    (h : goodTable m l) : goodTable m (xctUpdate l u f) := by
  intro x hx ha
  obtain ⟨y, hy, rfl⟩ := xctUpdate_mem l u f x hx
  by_cases hc : (y.tid == u) = true
  · rw [if_pos hc] at ha ⊢
    obtain ⟨hs, hfst⟩ := hf y
    rw [hs] at ha
    rw [hfst]
    exact h y hy ha
  · rw [if_neg hc] at ha ⊢
    exact h y hy ha

/-- Ending the entries of the designated fresh tid restores the full
    invariant. -/
theorem goodTable_update_end (m t : Nat) (l : List xct_t)
    (h : goodTableAt m t l) :
    goodTable m (xctUpdate l t endIfNotEnded) := by
  intro x hx ha
  obtain ⟨y, hy, rfl⟩ := xctUpdate_mem l t endIfNotEnded x hx
  by_cases hc : (y.tid == t) = true
  · rw [if_pos hc] at ha
    rw [endIfNotEnded_state y] at ha
    cases ha
  · rw [if_neg hc] at ha ⊢
    rcases h y hy ha with hg | ⟨_, htid⟩
    · exact hg
    · exact absurd (beq_iff_eq.mpr htid) (by simpa using hc)

/-- The trailing `first_lsn = min(first_lsn, lsn)` refresh of an update
    record's transaction restores the full invariant: the freshly created
    entry (still at the sentinel) is lowered to the record's LSN. -/
theorem goodTable_update_refresh (m t lsn : Nat) (l : List xct_t)
    (h : goodTableAt m t l) (h0 : 0 < lsn) (hm : lsn < m) :
    goodTable m (xctUpdate l t (fun x =>
      if lsn < x.first_lsn then { x with first_lsn := lsn } else x)) := by
  intro x hx ha
  obtain ⟨y, hy, rfl⟩ := xctUpdate_mem l t _ x hx
  by_cases hc : (y.tid == t) = true
  · rw [if_pos hc] at ha ⊢
    by_cases hlt : lsn < y.first_lsn
    · rw [if_pos hlt] at ha ⊢
      exact ⟨h0, hm⟩
    · rw [if_neg hlt] at ha ⊢
      rcases h y hy ha with hg | ⟨hfst, _⟩
      · exact hg
      · exact absurd (hfst ▸ hm) hlt
  · rw [if_neg hc] at ha ⊢
    rcases h y hy ha with hg | ⟨_, htid⟩
    · exact hg
    · exact absurd (beq_iff_eq.mpr htid) (by simpa using hc)

/-- Checkpoint transaction-table replay preserves the table invariant when
    the payload's unfinished entries carry real `first_lsn`s. -/
theorem chkptXctTab_good (m : Nat) : ∀ (es : List ChkptXctEntry)
    (tbl : List xct_t),
    (∀ e ∈ es, e.state ≠ XState.ended →
      0 < e.first_lsn ∧ e.first_lsn < m) →
    goodTable m tbl → goodTable m (chkptXctTab es tbl)
  | [], tbl, _, hg => hg
  | e :: rest, tbl, hwf, hg => by
      have hrest : ∀ e2 ∈ rest, e2.state ≠ XState.ended →
          0 < e2.first_lsn ∧ e2.first_lsn < m :=
        fun e2 he2 => hwf e2 (List.mem_cons_of_mem e he2)
      unfold chkptXctTab
      cases hlk : xctLookup tbl e.tid with
      | some y => exact chkptXctTab_good m rest tbl hrest hg
      | none =>
          by_cases hend : (e.state == XState.ended) = true
          · rw [if_pos hend]
            exact chkptXctTab_good m rest tbl hrest hg
          · rw [if_neg hend]
            refine chkptXctTab_good m rest _ hrest ?_
            intro x hx ha
            rcases List.mem_cons.mp hx with rfl | hx2
            · exact hwf e (List.mem_cons_self e rest)
                (fun hcontra => hend (beq_iff_eq.mpr hcontra))
            · exact hg x hx2 ha

/-- Group-end processing preserves the table invariant. -/
theorem groupEnd_good (m : Nat) : ∀ (ts : List Nat) (tbl tbl2 : List xct_t),
    goodTable m tbl → groupEnd ts tbl = .ok tbl2 → goodTable m tbl2
  | [], tbl, tbl2, hg, h => by
      unfold groupEnd at h
      injection h with h
      exact h ▸ hg
  | t :: rest, tbl, tbl2, hg, h => by
      unfold groupEnd at h
      cases hlk : xctLookup tbl t with
      | none =>
          rw [hlk] at h
          cases h
      | some y =>
          rw [hlk] at h
          refine groupEnd_good m rest (xctUpdate tbl t endIfNotEnded) tbl2 ?_ h
          exact goodTable_update_end m t tbl (goodTableAt_of_good m t tbl hg)

/-- The system-transaction branch only conses a completed (ended)
    transaction onto the table. -/
theorem stepSsx_xcts (st : AState) (lsn : Nat) (r : logrec_t) (st' : AState)
    (h : stepSsx st lsn r = .ok st') :
    ∃ y : xct_t, y.state = XState.ended ∧ st'.xcts = y :: st.xcts := by
  unfold stepSsx at h
  split at h
  · cases h
  · injection h with h
    subst h
    exact ⟨_, rfl, rfl⟩

/-- The page-update arm leaves the table unchanged or bumps one
    transaction's `undo_nxt`. -/
theorem stepPageUpdate_xcts (st : AState) (lsn : Nat) (r : logrec_t)
    (st' : AState) (h : stepPageUpdate st lsn r = .ok st') :
    st'.xcts = st.xcts ∨
    st'.xcts = xctUpdate st.xcts r.tid (fun x => { x with undo_nxt := lsn }) := by
  unfold stepPageUpdate at h
  split at h
  · cases h
  · split at h <;>
    · dsimp only at h
      split at h
      · cases h
      · split at h
        · split at h
          · split at h
            · injection h with h
              subst h
              first | exact Or.inl rfl | exact Or.inr rfl
            · injection h with h
              subst h
              first | exact Or.inl rfl | exact Or.inr rfl
          · injection h with h
            subst h
            first | exact Or.inl rfl | exact Or.inr rfl
        · split at h
          · cases h
          · injection h with h
            subst h
            first | exact Or.inl rfl | exact Or.inr rfl

/-- The compensation arm only nulls one transaction's `undo_nxt`. -/
theorem stepCpsn_xcts (st : AState) (lsn : Nat) (r : logrec_t)
    (st' : AState) (h : stepCpsn st lsn r = .ok st') :
    st'.xcts = xctUpdate st.xcts r.tid (fun x => { x with undo_nxt := 0 }) := by
  unfold stepCpsn at h
  split at h
  · cases h
  · split at h
    · cases h
    · dsimp only at h
      split at h
      · split at h
        · cases h
        · injection h with h
          subst h
          rfl
      · injection h with h
        subst h
        rfl

/-- The shared update-record body preserves the table invariant: the inner
    arm only touches `undo_nxt`, and the trailing `first_lsn` refresh
    lowers the freshly created entry from the sentinel to the record's
    LSN. -/
theorem stepUpdate_good (m lsn : Nat) (r : logrec_t) (st st' : AState)
    (h0 : 0 < lsn) (hm : lsn < m)
    (hg : goodTableAt m r.tid st.xcts)
    (hfix : (r.tid == 0) = true → goodTable m st.xcts)
    (h : stepUpdate st lsn r = .ok st') : goodTable m st'.xcts := by
  unfold stepUpdate at h
  split at h
  · cases h
  · rename_i st1 heq
    have hst1 : st1.xcts = st.xcts ∨
        st1.xcts = xctUpdate st.xcts r.tid
          (fun x => { x with undo_nxt := lsn }) ∨
        st1.xcts = xctUpdate st.xcts r.tid
          (fun x => { x with undo_nxt := 0 }) := by
      split at heq
      · exact (stepPageUpdate_xcts st lsn r st1 heq).elim Or.inl
          (fun hx => Or.inr (Or.inl hx))
      · split at heq
        · exact Or.inr (Or.inr (stepCpsn_xcts st lsn r st1 heq))
        · split at heq
          · cases heq
          · injection heq with heq
            subst heq
            exact Or.inl rfl
    by_cases ht : (r.tid == 0) = true
    · rw [if_pos ht] at h
      injection h with h
      subst h
      have hgood := hfix ht
      rcases hst1 with hx | hx | hx
      · rw [hx]
        exact hgood
      · rw [hx]
        exact goodTable_update_pres m r.tid _ st.xcts
          (fun y => ⟨rfl, rfl⟩) hgood
      · rw [hx]
        exact goodTable_update_pres m r.tid _ st.xcts
          (fun y => ⟨rfl, rfl⟩) hgood
    · rw [if_neg ht] at h
      injection h with h
      subst h
      have hg1 : goodTableAt m r.tid st1.xcts := by
        rcases hst1 with hx | hx | hx
        · rw [hx]
          exact hg
        · rw [hx]
          exact goodTableAt_update_pres m r.tid r.tid _ st.xcts
            (fun y => ⟨rfl, rfl, rfl⟩) hg
        · rw [hx]
          exact goodTableAt_update_pres m r.tid r.tid _ st.xcts
            (fun y => ⟨rfl, rfl, rfl⟩) hg
      exact goodTable_update_refresh m r.tid lsn st1.xcts hg1 h0 hm

/-- The kind dispatch preserves the table invariant from a fully good
    table (the non-created preamble cases). -/
theorem stepSwitch_good (m master lsn : Nat) (r : logrec_t) (st st' : AState)
    (h0 : 0 < lsn) (hm : lsn < m)
    (hwfx : ∀ e ∈ r.xct_tab, e.state ≠ XState.ended →
      0 < e.first_lsn ∧ e.first_lsn < m)
    (hg : goodTable m st.xcts)
    (h : stepSwitch master st lsn r = .ok st') : goodTable m st'.xcts := by
  unfold stepSwitch at h
  split at h
  -- chkpt_begin
  · injection h with h
    subst h
    exact hg
  -- chkpt_bf_tab
  · split at h
    · split at h
      · cases h
      · injection h with h
        subst h
        exact hg
    · injection h with h
      subst h
      exact hg
  -- chkpt_xct_tab
  · split at h
    · injection h with h
      subst h
      exact chkptXctTab_good m r.xct_tab st.xcts hwfx hg
    · injection h with h
      subst h
      exact hg
  -- chkpt_dev_tab
  · split at h
    · injection h with h
      subst h
      exact hg
    · injection h with h
      subst h
      exact hg
  -- mount_vol
  · split at h
    · injection h with h
      subst h
      exact hg
    · injection h with h
      subst h
      exact hg
  -- dismount_vol
  · split at h
    · injection h with h
      subst h
      exact hg
    · injection h with h
      subst h
      exact hg
  -- chkpt_end
  · split at h
    · cases h
    · rename_i st1 heq
      injection h with h
      subst h
      split at heq
      · split at heq
        · injection heq with heq
          subst heq
          exact hg
        · cases heq
      · injection heq with heq
        subst heq
        exact hg
  -- xct_freeing_space
  · split at h
    · cases h
    · injection h with h
      subst h
      exact goodTable_update_end m r.tid st.xcts
        (goodTableAt_of_good m r.tid st.xcts hg)
  -- xct_end_group
  · split at h
    · cases h
    · rename_i tbl heq
      injection h with h
      subst h
      exact groupEnd_good m r.group_tids st.xcts tbl hg heq
  -- xct_abort
  · split at h
    · cases h
    · injection h with h
      subst h
      exact goodTable_update_end m r.tid st.xcts
        (goodTableAt_of_good m r.tid st.xcts hg)
  -- xct_end
  · split at h
    · cases h
    · injection h with h
      subst h
      exact goodTable_update_end m r.tid st.xcts
        (goodTableAt_of_good m r.tid st.xcts hg)
  -- comment
  · injection h with h
    subst h
    exact hg
  -- skip
  · injection h with h
    subst h
    exact hg
  -- max_logrec
  · injection h with h
    subst h
    exact hg
  -- update kinds
  · exact stepUpdate_good m lsn r st st' h0 hm
      (goodTableAt_of_good m r.tid st.xcts hg) (fun _ => hg) h

/-- The kind dispatch restores the full table invariant in the
    created-preamble case: the record carries a real tid and is an
    update-style or transaction-end record, and the freshly created entry
    (at the sentinel `first_lsn`) is either transitioned to ended or has
    its `first_lsn` refreshed to the record's LSN. -/
theorem stepSwitch_good_created (m master lsn : Nat) (r : logrec_t)
    (st st' : AState)
    (h0 : 0 < lsn) (hm : lsn < m)
    (htid0 : (r.rtype = .chkpt_begin ∨ r.rtype = .chkpt_bf_tab ∨
      r.rtype = .chkpt_xct_tab ∨ r.rtype = .chkpt_dev_tab ∨
      r.rtype = .chkpt_end ∨ r.rtype = .mount_vol ∨
      r.rtype = .dismount_vol ∨ r.rtype = .xct_end_group) → r.tid = 0)
    (hne : (r.tid == 0) = false)
    (hnc : (r.rtype == Rectype.comment) = false)
    (hns : (r.rtype == Rectype.skip) = false)
    (hnm : (r.rtype == Rectype.max_logrec) = false)
    (hg : goodTableAt m r.tid st.xcts)
    (h : stepSwitch master st lsn r = .ok st') : goodTable m st'.xcts := by
  unfold stepSwitch at h
  split at h
  -- chkpt_begin
  · rename_i heq
    have ht := htid0 (by simp [heq])
    rw [ht] at hne
    simp at hne
  -- chkpt_bf_tab
  · rename_i heq
    have ht := htid0 (by simp [heq])
    rw [ht] at hne
    simp at hne
  -- chkpt_xct_tab
  · rename_i heq
    have ht := htid0 (by simp [heq])
    rw [ht] at hne
    simp at hne
  -- chkpt_dev_tab
  · rename_i heq
    have ht := htid0 (by simp [heq])
    rw [ht] at hne
    simp at hne
  -- mount_vol
  · rename_i heq
    have ht := htid0 (by simp [heq])
    rw [ht] at hne
    simp at hne
  -- dismount_vol
  · rename_i heq
    have ht := htid0 (by simp [heq])
    rw [ht] at hne
    simp at hne
  -- chkpt_end
  · rename_i heq
    have ht := htid0 (by simp [heq])
    rw [ht] at hne
    simp at hne
  -- xct_freeing_space
  · split at h
    · cases h
    · injection h with h
      subst h
      exact goodTable_update_end m r.tid st.xcts hg
  -- xct_end_group
  · rename_i heq
    have ht := htid0 (by simp [heq])
    rw [ht] at hne
    simp at hne
  -- xct_abort
  · split at h
    · cases h
    · injection h with h
      subst h
      exact goodTable_update_end m r.tid st.xcts hg
  -- xct_end
  · split at h
    · cases h
    · injection h with h
      subst h
      exact goodTable_update_end m r.tid st.xcts hg
  -- comment
  · rename_i heq
    rw [heq] at hnc
    simp at hnc
  -- skip
  · rename_i heq
    rw [heq] at hns
    simp at hns
  -- max_logrec
  · rename_i heq
    rw [heq] at hnm
    simp at hnm
  -- update kinds
  · exact stepUpdate_good m lsn r st st' h0 hm hg
      (fun hcontra => absurd hcontra (by simp [hne])) h

/-- One Analysis-scan step preserves the table invariant: every active
    entry of the transaction table keeps a real `first_lsn` below the
    `max_lsn` sentinel, for a well-formed log record. -/
theorem analysisStep_good (m master lsn : Nat) (r : logrec_t)
    (st st' : AState)
    (hwf : wfLogRec m (lsn, r))
    (hg : goodTable m st.xcts)
    (h : analysisStep m master st lsn r = .ok st') :
    goodTable m st'.xcts := by
  obtain ⟨hlsn0, hlsnm, htid0, hxtab⟩ := hwf
  unfold analysisStep at h
  split at h
  · cases h
  · dsimp only at h
    split at h
    · obtain ⟨y, hy, hxeq⟩ := stepSsx_xcts _ lsn r st' h
      rw [hxeq]
      intro x hx ha
      rcases List.mem_cons.mp hx with rfl | hx2
      · rw [hy] at ha
        cases ha
      · exact hg x hx2 ha
    · split at h
      · rename_i hcond
        simp only [Bool.and_eq_true, Bool.not_eq_true'] at hcond
        obtain ⟨⟨⟨⟨hne, _⟩, hnc⟩, hns⟩, hnm⟩ := hcond
        refine stepSwitch_good_created m master lsn r _ st' hlsn0 hlsnm
          htid0 hne hnc hns hnm ?_ h
        intro x hx ha
        rcases List.mem_cons.mp hx with rfl | hx2
        · exact Or.inr ⟨rfl, rfl⟩
        · exact Or.inl (hg x hx2 ha)
      · split at h
        · refine stepSwitch_good m master lsn r _ st' hlsn0 hlsnm hxtab ?_ h
          exact goodTable_update_pres m r.tid _ st.xcts
            (fun y => ⟨rfl, rfl⟩) hg
        · exact stepSwitch_good m master lsn r { st with last_lsn := lsn } st'
            hlsn0 hlsnm hxtab hg h

/-- The whole Analysis forward scan preserves the table invariant. -/
theorem analysisScan_good (m master : Nat) : ∀ (recs : List (Nat × logrec_t))
    (st st' : AState),
    (∀ p ∈ recs, wfLogRec m p) → goodTable m st.xcts →
    analysisScan m master recs st = .ok st' → goodTable m st'.xcts
  | [], st, st', _, hg, h => by
      unfold analysisScan at h
      injection h with h
      exact h ▸ hg
  | (lsn, r) :: rest, st, st', hwf, hg, h => by
      unfold analysisScan at h
      cases hstep : analysisStep m master st lsn r with
      | error e =>
          rw [hstep] at h
          cases h
      | ok st1 =>
          rw [hstep] at h
          exact analysisScan_good m master rest st1 st'
            (fun p hp => hwf p (List.mem_cons_of_mem _ hp))
            (analysisStep_good m master lsn r st st1
              (hwf (lsn, r) (List.mem_cons_self _ rest)) hg hstep) h

/-- The pre-sweep portion of `analysis_pass` yields a table in which every
    active (doomed) entry carries a real `first_lsn` below the sentinel. -/
theorem analysisPrep_good (master currLsn : Nat)
    (recs : List (Nat × logrec_t)) (st : AState) (lm : Nat)
    (hwf : ∀ p ∈ recs, wfLogRec (currLsn + 1) p)
    (h : analysisPrep master currLsn recs = .ok (st, lm)) :
    goodTable (currLsn + 1) st.xcts := by
  unfold analysisPrep at h
  split at h
  · cases h
  · rename_i p0 r0 rest
    split at h
    · cases h
    · dsimp only at h
      split at h
      · cases h
      · rename_i st1 hscan
        have hwfrest : ∀ p ∈ rest, wfLogRec (currLsn + 1) p := by
          intro p hp
          exact hwf p (List.mem_cons_of_mem _ hp)
        have hg1 : goodTable (currLsn + 1) st1.xcts :=
          analysisScan_good (currLsn + 1) master rest _ st1 hwfrest
            (fun x hx => absurd hx (List.not_mem_nil x)) hscan
        split at h
        · cases h
        · split at h
          · cases h
          · split at h
            · split at h
              · cases h
              · injection h with h
                injection h with h1 h2
                subst h1
                exact hg1
            · injection h with h
              injection h with h1 h2
              subst h1
              exact hg1

/-- C2: at the end of Analysis the returned `commit_lsn` equals the
    minimum `first_lsn` over the doomed (active) transactions left in the
    transaction table (their `first_lsn`s as accumulated by the scan,
    before the sweep nulls them), and `commit_lsn` is NULL if and only if
    there are no doomed transactions. Stated for a non-null master and a
    well-formed log whose Analysis completes without a fatal error: the
    surviving table is exactly the doomed set with `first_lsn` nulled,
    `commit_lsn` is a lower bound of the doomed `first_lsn`s and is
    attained by one of them when the set is non-empty. -/
theorem C2_commit_lsn_min_doomed (serial : Bool) (master currLsn : Nat)
    (recs : List (Nat × logrec_t)) (res : ARes)
    (hmaster : master ≠ 0)
    (hwf : ∀ p ∈ recs, wfLogRec (currLsn + 1) p)
    (hok : analysis_pass serial master currLsn recs = .ok res) :
    ∃ st lm, analysisPrep master currLsn recs = .ok (st, lm) ∧
      res.xcts = (activeOf st.xcts).map (fun x => { x with first_lsn := 0 }) ∧
      (res.commit_lsn = 0 ↔ activeOf st.xcts = []) ∧
      (∀ x ∈ activeOf st.xcts, res.commit_lsn ≤ x.first_lsn) ∧
      (activeOf st.xcts ≠ [] →
        ∃ x ∈ activeOf st.xcts, res.commit_lsn = x.first_lsn) := by
  unfold analysis_pass at hok
  rw [if_neg (by simp [hmaster])] at hok
  split at hok
  · cases hok
  · rename_i st lm hprep
    split at hok
    · cases hok
    · rename_i tbl hp commit hsweep
      injection hok with hok
      subst hok
      have hgood : goodTable (currLsn + 1) st.xcts :=
        analysisPrep_good master currLsn recs st lm hwf hprep
      obtain ⟨hc, ht, hh⟩ :=
        analysisSweep_ok serial st.xcts (currLsn + 1) tbl hp commit hsweep
      have hmem : ∀ x ∈ activeOf st.xcts,
          0 < x.first_lsn ∧ x.first_lsn < currLsn + 1 := by
        intro x hx
        obtain ⟨hxm, hxa⟩ := List.mem_filter.mp hx
        exact hgood x hxm (beq_iff_eq.mp hxa)
      have hbound : ∀ x ∈ activeOf st.xcts, commit ≤ x.first_lsn := by
        intro x hx
        rw [hc]
        exact foldlMin_le_mem _ _ _ (List.mem_map_of_mem xct_t.first_lsn hx)
      refine ⟨st, lm, hprep, ht, ?_⟩
      by_cases hact : activeOf st.xcts = []
      · have hcc : commit = currLsn + 1 := by
          rw [hc, hact]
          rfl
        have hzero : (if (commit == currLsn + 1) = true then 0 else commit)
            = 0 := by
          rw [if_pos (beq_iff_eq.mpr hcc)]
        refine ⟨?_, ?_, ?_⟩
        · simp only [hzero]
          exact ⟨fun _ => hact, fun _ => trivial⟩
        · intro x hx
          rw [hact] at hx
          cases hx
        · intro hcontra
          exact absurd hact hcontra
      · obtain ⟨x0, hx0⟩ := List.exists_mem_of_ne_nil _ hact
        have hlt : commit < currLsn + 1 :=
          Nat.lt_of_le_of_lt (hbound x0 hx0) (hmem x0 hx0).2
        have hne2 : (commit == currLsn + 1) = false := by
          rw [beq_eq_false_iff_ne]
          omega
        have hres : (if (commit == currLsn + 1) = true then 0 else commit)
            = commit := by
          rw [hne2]
          rfl
        have hattain : ∃ x ∈ activeOf st.xcts, commit = x.first_lsn := by
          rcases foldlMin_attained
              ((activeOf st.xcts).map xct_t.first_lsn) (currLsn + 1) with
            hcase | hcase
          · rw [← hc] at hcase
            omega
          · rw [← hc] at hcase
            obtain ⟨x, hxm, hxe⟩ := List.mem_map.mp hcase
            exact ⟨x, hxm, hxe.symm⟩
        refine ⟨?_, ?_, ?_⟩
        · simp only [hres]
          constructor
          · intro hczero
            obtain ⟨x, hxm, hxe⟩ := hattain
            have := (hmem x hxm).1
            omega
          · intro hcontra
            exact absurd hcontra hact
        · intro x hx
          simp only [hres]
          exact hbound x hx
        · intro _
          simp only [hres]
          exact hattain

theorem C2_commit_lsn_min_doomed_witness :
    ((1 : Nat) ≠ 0) ∧ (∀ p ∈ sampleLog, wfLogRec 4 p) ∧
    (∃ st lm, analysisPrep 1 3 sampleLog = .ok (st, lm) ∧
      sampleARes.xcts =
        (activeOf st.xcts).map (fun x => { x with first_lsn := 0 }) ∧
      (sampleARes.commit_lsn = 0 ↔ activeOf st.xcts = []) ∧
      (∀ x ∈ activeOf st.xcts, sampleARes.commit_lsn ≤ x.first_lsn) ∧
      (activeOf st.xcts ≠ [] →
        ∃ x ∈ activeOf st.xcts, sampleARes.commit_lsn = x.first_lsn)) := by
  have hwf : ∀ p ∈ sampleLog, wfLogRec 4 p := by
    intro p hp
    fin_cases hp <;> exact ⟨by decide, by decide, by decide, by decide⟩
  have hok : analysis_pass false 1 3 sampleLog = .ok sampleARes := by rfl
  exact ⟨by decide, hwf,
    C2_commit_lsn_min_doomed false 1 3 sampleLog sampleARes (by decide)
      hwf hok⟩
